import Mathlib

/-!
Shallow embedding of the control-flow lowering stage of Wasynth:
`codegen-luajit/src/backend/statement.rs` (goto-capable backend) and
`codegen-luau/src/backend/statement.rs` (structured-only backend).

Emission is modelled as functions producing a list of output chunks that
mirror the `write!` calls of the source one for one, together with an
explicit scope-manager state and a bounded output sink: each chunk write
consumes one unit of sink capacity and fails with an io error when the
sink is exhausted, mirroring `io::Result` propagation through the `?`
operator.  A `fatal` outcome models a Rust panic (`unwrap` failure or
`usize` underflow), which the spec classifies as a fatal precondition
breach rather than a recoverable error.
-/

/-- Outcome of one emission step: success, a sink io error (recoverable,
propagated via `?`), or a fatal precondition breach (a panic). -/
inductive R
  | ok
  | ioErr
  | fatal
deriving DecidableEq, Repr

/-- Modelled from the spec: the Scope Manager state (§4.1), shared shape for
both backends, whose `manager.rs` is not under `src/`.  `labels` is the stack
of active frames (innermost last), tagged with `α` (a unique label id in the
goto backend, a frame kind in the structured backend); `counter` is the next
fresh label id (goto backend only); `num_param` is the read-only parameter
count; `sink` is the remaining capacity of the abstract output sink. -/
structure MSt (α : Type) where
  labels : List α
  counter : ℕ
  num_param : ℕ
  sink : ℕ
deriving DecidableEq, Repr

/-- Write one output chunk: consumes one unit of sink capacity, failing with
an io error when the sink is exhausted. -/
def wr {α χ : Type} (c : χ) (st : MSt α) : List χ × MSt α × R :=
  if st.sink = 0 then ([], st, R.ioErr)
  else ([c], { st with sink := st.sink - 1 }, R.ok)

/-- Sequence two emission steps, short-circuiting on failure like `?`; the
chunks already written are kept either way. -/
def thenDo {α χ : Type} (a : List χ × MSt α × R) (f : MSt α → List χ × MSt α × R) :
    List χ × MSt α × R :=
  match a with
  | (cs, st, R.ok) =>
    let b := f st
    (cs ++ b.1, b.2.1, b.2.2)
  | other => other

/-- The empty emission step. -/
def okE {α χ : Type} (st : MSt α) : List χ × MSt α × R := ([], st, R.ok)

namespace luajit

/-- Output chunks of the goto-capable backend.  Label anchors and gotos are
kept structured (their label id is what the claims are about); every other
`write!` is kept as its literal text; `expr` marks an opaque expression
written by the expression backend. -/
inductive Ck
  | str (s : String)
  | expr (s : String)
  | anchor (l : ℕ)
  | goto (l : ℕ)
deriving DecidableEq, Repr

/-- Render a chunk to the exact text the source writes. -/
def render : Ck → String
  | .str s => s
  | .expr s => s
  | .anchor l => "::continue_at_" ++ toString l ++ "::"
  | .goto l => "goto continue_at_" ++ toString l ++ " "

/-- The goto backend's manager state: frames carry unique label ids. -/
abbrev St := MSt ℕ

/-- Modelled from the spec: `Manager::push_label` (§3, §4.1) appends one
frame tagged with a unique, monotonically increasing label identifier
assigned at push time, and returns that identifier. -/
def push_label (st : St) : ℕ × St :=
  (st.counter, { st with labels := st.labels ++ [st.counter], counter := st.counter + 1 })

/-- Modelled from the spec: `Manager::pop_label` (§4.1) removes the most
recently pushed frame. -/
def pop_label (st : St) : St :=
  { st with labels := st.labels.dropLast }

/-- `label_list().iter().nth_back(n)`: the `n`-th element from the back of
the slice, `none` when `n` is out of range. -/
def nth_back (l : List ℕ) (n : ℕ) : Option ℕ := l.reverse.get? n

/-- `write_br_at`: resolve `up` frames from the innermost and emit a goto to
that frame's label.  The source's `.unwrap()` panics when `up` is out of
range; that is the fatal outcome. -/
def write_br_at (up : ℕ) (st : St) : List Ck × St × R :=
  match nth_back st.labels up with
  | none => ([], st, R.fatal)
  | some level => wr (Ck.goto level) st

/-- The inner loop of `condense_jump_table`: starting at run start `index`,
repeatedly advance `index` by one and stop at the end of the list or at the
first position whose value differs from its predecessor; returns the final
index.  The source compares `index == list.len()`; the loop only ever
reaches indices `≤ list.len()`, so the `≤` guard used here is the same
test. -/
def run_end (list : List ℕ) (index : ℕ) : ℕ :=
  if list.length ≤ index + 1 then index + 1
  else if list.getD index 0 ≠ list.getD (index + 1) 0 then index + 1
  else run_end list (index + 1)
termination_by list.length - index
decreasing_by
  simp only [not_le] at *
  omega

/-- The outer loop of `condense_jump_table`: emit one maximal run
`(start, end, value)` beginning at `index`, then continue at the run's
end. -/
def condense_go (list : List ℕ) (index : ℕ) : List (ℕ × ℕ × ℕ) :=
  if h : index < list.length then
    (index, run_end list index - 1, list.getD index 0) :: condense_go list (run_end list index)
  else []
termination_by list.length - index
decreasing_by
  have key : ∀ n j, list.length - j ≤ n → j + 1 ≤ run_end list j := by
    intro n
    induction n with
    | zero =>
      intro j hj
      rw [run_end]
      split
      · omega
      · split
        · omega
        · omega
    | succ m ih =>
      intro j hj
      rw [run_end]
      split
      · omega
      · split
        · omega
        · have := ih (j + 1) (by omega)
          omega
  have := key list.length index (by omega)
  omega

/-- `condense_jump_table`: a single left-to-right pass producing the ordered
list of maximal constant-value runs `(start, end, value)` of `list`. -/
def condense_jump_table (list : List ℕ) : List (ℕ × ℕ × ℕ) :=
  condense_go list 0

/-- `wasm_ast::node::Terminator` as consumed by the goto backend:
`Unreachable`, `Br { target }`, `BrTable { cond, data: { table, default } }`.
Expressions are opaque strings. -/
inductive Term
  | unreachable
  | br (target : ℕ)
  | brTable (cond : String) (table : List ℕ) (default : ℕ)
deriving DecidableEq, Repr

mutual
/-- The shared payload of `wasm_ast::node::Forward` / `Backward` (and of the
`Forward` arms of `If`): a statement list `code` and an optional terminator
`last`. -/
inductive Fwd
  | mk (code : List StmtJ) (last : Option Term)

/-- `wasm_ast::node::Statement` as consumed by the goto backend.  `call`
carries the callee index, the result register range `(start, stop)` and the
opaque argument list; `storeAt` carries the store kind name, pointer
expression, offset and value expression. -/
inductive StmtJ
  | forward (f : Fwd)
  | backward (f : Fwd)
  | ifS (cond : String) (truthy : Fwd) (falsey : Option Fwd)
  | call (func : ℕ) (result : ℕ × ℕ) (param_list : String)
  | callIndirect (tbl : ℕ) (index : String) (result : ℕ × ℕ) (param_list : String)
  | setTemporary (var : ℕ) (value : String)
  | setLocal (var : ℕ) (value : String)
  | setGlobal (var : ℕ) (value : String)
  | storeAt (what : String) (pointer : String) (offset : ℕ) (value : String)
end

/-- Per-run emission of `BrTable::write`'s `for` loop: an equality or range
test on the scratch value, the guarded jump, then `"else"`. -/
def runs_write : List (ℕ × ℕ × ℕ) → St → List Ck × St × R
  | [], st => okE st
  | (start, stop, dest) :: rest, st =>
    thenDo
      (wr
        (Ck.str
          (if start = stop then "if temp == " ++ toString start ++ " then "
           else
             "if temp >= " ++ toString start ++ " and temp <= " ++ toString stop ++
               " then ")) st)
      (fun st =>
        thenDo (write_br_at dest st) (fun st =>
          thenDo (wr (Ck.str "else") st) (fun st => runs_write rest st)))

/-- `Terminator::write`: dispatch on the terminator kind.  `BrTable::write`
drops the discriminant and jumps straight to `default` when the table is
empty; otherwise it stores the discriminant in `temp`, runs the condensed
jump table as a guarded chain and ends with an unconditional jump to
`default`. -/
def term_write : Term → St → List Ck × St × R
  | .unreachable, st => wr (Ck.str "error(\"out of code bounds\")") st
  | .br target, st => write_br_at target st
  | .brTable cond table default, st =>
    if table.isEmpty then write_br_at default st
    else
      thenDo (wr (Ck.str "temp = ") st) (fun st =>
        thenDo (wr (Ck.expr cond) st) (fun st =>
          thenDo (runs_write (condense_jump_table table) st) (fun st =>
            thenDo (wr (Ck.str " ") st) (fun st =>
              thenDo (write_br_at default st) (fun st => wr (Ck.str "end ") st)))))

/-- Modelled from the spec: `write_condition` (a manager helper not under
`src/`) writes the truthiness test of the condition expression (§4.2:
non-zero is true); the text is opaque here. -/
def write_condition (cond : String) (st : St) : List Ck × St × R :=
  wr (Ck.expr cond) st

/-- Modelled from the spec: `write_ascending` (an output-formatting helper
not under `src/`, §6) renders the names with prefix `p` and ascending
integer suffixes over `lo..hi`, comma-separated; it is modelled as a single
chunk and a single sink write. -/
def write_ascending (p : String) (lo hi : ℕ) : String :=
  String.intercalate ", " ((List.range (hi - lo)).map (fun i => p ++ "_" ++ toString (lo + i)))

/-- Modelled from the spec: `write_variable` (a manager helper not under
`src/`, §4.1, §4.4) addresses the first `num_param` slots as parameters and
the rest as locals, with prefix-plus-ascending-suffix names. -/
def write_variable (var : ℕ) (st : St) : List Ck × St × R :=
  if var < st.num_param then wr (Ck.str ("param_" ++ toString var ++ " ")) st
  else wr (Ck.str ("loc_" ++ toString (var - st.num_param) ++ " ")) st

/-- `write_call_store`: assign the result register range (ascending) before
the call when it is non-empty. -/
def write_call_store (result : ℕ × ℕ) (st : St) : List Ck × St × R :=
  if result.2 ≤ result.1 then okE st
  else
    thenDo (wr (Ck.str (write_ascending "reg" result.1 result.2)) st) (fun st =>
      wr (Ck.str " = ") st)

mutual
/-- `Statement::write` of the goto backend: dispatch on the statement
kind. -/
def stmtJ_write : StmtJ → St → List Ck × St × R
  | .forward f, st => fwd_write f st
  | .backward f, st => bwd_write f st
  | .ifS cond truthy falsey, st =>
    thenDo (wr (Ck.str "if ") st) (fun st =>
      thenDo (write_condition cond st) (fun st =>
        thenDo (wr (Ck.str "then ") st) (fun st =>
          thenDo (fwd_write truthy st) (fun st =>
            thenDo
              (match falsey with
               | some f => thenDo (wr (Ck.str "else ") st) (fun st => fwd_write f st)
               | none => okE st)
              (fun st => wr (Ck.str "end ") st)))))
  | .call func result param_list, st =>
    thenDo (write_call_store result st) (fun st =>
      thenDo (wr (Ck.str ("FUNC_LIST[" ++ toString func ++ "](")) st) (fun st =>
        thenDo (wr (Ck.expr param_list) st) (fun st => wr (Ck.str ")") st)))
  | .callIndirect tbl index result param_list, st =>
    thenDo (write_call_store result st) (fun st =>
      thenDo (wr (Ck.str ("TABLE_LIST[" ++ toString tbl ++ "].data[")) st) (fun st =>
        thenDo (wr (Ck.expr index) st) (fun st =>
          thenDo (wr (Ck.str "](") st) (fun st =>
            thenDo (wr (Ck.expr param_list) st) (fun st => wr (Ck.str ")") st)))))
  | .setTemporary var value, st =>
    thenDo (wr (Ck.str ("reg_" ++ toString var ++ " = ")) st) (fun st =>
      wr (Ck.expr value) st)
  | .setLocal var value, st =>
    thenDo (write_variable var st) (fun st =>
      thenDo (wr (Ck.str "= ") st) (fun st => wr (Ck.expr value) st))
  | .setGlobal var value, st =>
    thenDo (wr (Ck.str ("GLOBAL_LIST[" ++ toString var ++ "].value = ")) st) (fun st =>
      wr (Ck.expr value) st)
  | .storeAt what pointer offset value, st =>
    thenDo (wr (Ck.str ("store_" ++ what ++ "(memory_at_0, ")) st) (fun st =>
      thenDo (wr (Ck.expr pointer) st) (fun st =>
        thenDo
          (if offset ≠ 0 then wr (Ck.str ("+ " ++ toString offset)) st else okE st)
          (fun st =>
            thenDo (wr (Ck.str ", ") st) (fun st =>
              thenDo (wr (Ck.expr value) st) (fun st => wr (Ck.str ")") st)))))

/-- Sequential emission of a statement list (`iter().try_for_each`). -/
def stmtsJ_write : List StmtJ → St → List Ck × St × R
  | [], st => okE st
  | s :: rest, st => thenDo (stmtJ_write s st) (fun st => stmtsJ_write rest st)

/-- `Forward::write` of the goto backend: push a fresh label, emit the body
and the optional terminator, emit the label anchor at the exit, pop. -/
def fwd_write : Fwd → St → List Ck × St × R
  | .mk code last, st =>
    let p := push_label st
    thenDo (stmtsJ_write code p.2) (fun st =>
      thenDo
        (match last with
         | some v => term_write v st
         | none => okE st)
        (fun st =>
          thenDo (wr (Ck.anchor p.1) st) (fun st => okE (pop_label st))))

/-- `Backward::write` of the goto backend: push a fresh label, emit the
anchor before an unconditional loop wrapper, emit body and terminator, close
the wrapper, pop. -/
def bwd_write : Fwd → St → List Ck × St × R
  | .mk code last, st =>
    let p := push_label st
    thenDo (wr (Ck.anchor p.1) p.2) (fun st =>
      thenDo (wr (Ck.str "while true do ") st) (fun st =>
        thenDo (stmtsJ_write code st) (fun st =>
          thenDo
            (match last with
             | some v => term_write v st
             | none => okE st)
            (fun st =>
              thenDo (wr (Ck.str "break ") st) (fun st =>
                thenDo (wr (Ck.str "end ") st) (fun st => okE (pop_label st)))))))
end

/-- `parity_wasm::elements::ValueType`, used to pick the zero literal of a
declared local run. -/
inductive ValueType
  | i32
  | i64
  | f32
  | f64
deriving DecidableEq, Repr

/-- `wasm_ast::node::FuncData` as consumed by the goto backend:
parameter count, result count, local runs `(count, value_type)`, temporary
slot count and the root `Forward` body. -/
structure FuncData where
  num_param : ℕ
  num_result : ℕ
  local_data : List (ℕ × ValueType)
  num_stack : ℕ
  code : Fwd

/-- Modelled from the spec: `write_separated` (an output-formatting helper
not under `src/`, §6) repeats one rendered element `n` times with comma
separators; modelled as a single chunk and sink write. -/
def write_separated (n : ℕ) (s : String) : String :=
  String.intercalate ", " (List.replicate n s)

/-- `write_parameter_list`: `function(` then the ascending parameter names
then `)`. -/
def write_parameter_list (num_param : ℕ) (st : St) : List Ck × St × R :=
  thenDo (wr (Ck.str "function(") st) (fun st =>
    thenDo (wr (Ck.str (write_ascending "param" 0 num_param)) st) (fun st =>
      wr (Ck.str ")") st))

/-- One local run of `write_variable_list`: `local loc_i, ... = 0, ...` with
the `0LL` literal for `I64` locals. -/
def local_runs_write : List (ℕ × ValueType) → ℕ → St → List Ck × St × R
  | [], _, st => okE st
  | (count, typed) :: rest, total, st =>
    thenDo (wr (Ck.str "local ") st) (fun st =>
      thenDo (wr (Ck.str (write_ascending "loc" total (total + count))) st) (fun st =>
        thenDo (wr (Ck.str " = ") st) (fun st =>
          thenDo
            (wr (Ck.str (write_separated count (if typed = ValueType.i64 then "0LL" else "0"))) st)
            (fun st =>
              thenDo (wr (Ck.str " ") st) (fun st =>
                local_runs_write rest (total + count) st)))))

/-- `write_variable_list`: the typed local runs, then the uninitialized
temporary slots when `num_stack` is non-zero. -/
def write_variable_list (ast : FuncData) (st : St) : List Ck × St × R :=
  thenDo (local_runs_write ast.local_data 0 st) (fun st =>
    if ast.num_stack ≠ 0 then
      thenDo (wr (Ck.str "local ") st) (fun st =>
        thenDo (wr (Ck.str (write_ascending "reg" 0 ast.num_stack)) st) (fun st =>
          wr (Ck.str " ") st))
    else okE st)

/-- `FuncData::write`: prologue, `local temp`, the root body, then — only
when `num_result` is non-zero — an explicit return of registers
`reg_0 .. reg_{num_result - 1}`, and the closing `end`. -/
def funcData_write (ast : FuncData) (st : St) : List Ck × St × R :=
  thenDo (write_parameter_list ast.num_param st) (fun st =>
    thenDo (write_variable_list ast st) (fun st =>
      thenDo (wr (Ck.str "local temp ") st) (fun st =>
        thenDo (fwd_write ast.code { st with num_param := ast.num_param }) (fun st =>
          thenDo
            (if ast.num_result ≠ 0 then
              thenDo (wr (Ck.str "return ") st) (fun st =>
                thenDo (wr (Ck.str (write_ascending "reg" 0 ast.num_result)) st) (fun st =>
                  wr (Ck.str " ") st))
            else okE st)
            (fun st => wr (Ck.str "end ") st)))))

end luajit

namespace luau

/-- `manager::Label` of the structured-only backend: the kind tag of a scope
frame. -/
inductive Label
  | Forward
  | Backward
  | If
deriving DecidableEq, Repr

/-- Output chunks of the structured-only backend.  The sentinel writes and
sentinel comparisons are kept structured (their level is what the claims are
about); every other `write!` is kept as its literal text; `expr` marks an
opaque expression written by the expression backend. -/
inductive Ck
  | str (s : String)
  | expr (s : String)
  | setDesired (level : ℕ)
  | ifDesiredEq (level : ℕ)
  | tableEntry (d : ℕ)
  | orDefault (d : ℕ)
deriving DecidableEq, Repr

/-- Render a chunk to the exact text the source writes (`\x7b`/`\x7d` are
the literal braces of the Luau table constructor). -/
def render : Ck → String
  | .str s => s
  | .expr s => s
  | .setDesired level => "desired = " ++ toString level ++ " "
  | .ifDesiredEq level => "if desired == " ++ toString level ++ " then "
  | .tableEntry d => toString d ++ ", "
  | .orDefault d => "] or " ++ toString d ++ " "

/-- The structured backend's manager state: frames carry kind tags (the
`counter` field of the shared state is unused). -/
abbrev St := MSt Label

/-- Modelled from the spec: `Manager::push_label` (§4.1) appends one frame
and returns a depth-stable handle.  The handle is consumed only by
`write_br_gadget` as the level the post-check compares against the sentinel;
the spec fixes the sentinel to the resolved target frame's depth
(`label_list.len() - 1 - up`, see `write_br_at`) and fixes the post-check's
outcomes (clear then re-enter the loop, fall past the wrapper, or propagate
outward, §4.3, §8), which makes the handle the depth of the frame enclosing
the pushed one, i.e. the stack length before the push minus one (the value
is unused for an outermost frame, where no post-check is emitted). -/
def push_label (label : Label) (st : St) : ℕ × St :=
  (st.labels.length - 1, { st with labels := st.labels ++ [label] })

/-- Modelled from the spec: `Manager::pop_label` (§4.1) removes the most
recently pushed frame. -/
def pop_label (st : St) : St :=
  { st with labels := st.labels.dropLast }

/-- `br_target`: the sentinel post-check gadget.  `if desired then` — if the
sentinel equals `level`, clear it (and `continue` when `in_loop`); any
remaining signal falls to the `break`. -/
def br_target (level : ℕ) (in_loop : Bool) (st : St) : List Ck × St × R :=
  thenDo (wr (Ck.str "if desired then ") st) (fun st =>
    thenDo (wr (Ck.ifDesiredEq level) st) (fun st =>
      thenDo (wr (Ck.str "desired = nil ") st) (fun st =>
        thenDo (if in_loop then wr (Ck.str "continue ") st else okE st) (fun st =>
          thenDo (wr (Ck.str "end ") st) (fun st =>
            thenDo (wr (Ck.str "break ") st) (fun st => wr (Ck.str "end ") st))))))

/-- `write_br_gadget`: emit the post-check gadget when an enclosing wrapper
exists (`label_list.last()` after the pop), marking it loop-like when that
enclosing wrapper is a `Backward`; emit nothing at the outermost level. -/
def write_br_gadget (label_list : List Label) (rem : ℕ) (st : St) : List Ck × St × R :=
  match label_list.getLast? with
  | some Label.Forward | some Label.If => br_target rem false st
  | some Label.Backward => br_target rem true st
  | none => okE st

/-- `write_br_at`: the depth-0 fast path is a native `continue` (innermost
wrapper is a `Backward`) or `break`; a non-local branch writes the sentinel
to the resolved target frame's depth `label_list.len() - 1 - up` and breaks.
The source computes that depth with `usize` subtraction, which underflows
when `up` is out of range — a fatal precondition breach (§7). -/
def write_br_at (up : ℕ) (st : St) : List Ck × St × R :=
  thenDo (wr (Ck.str "do ") st) (fun st1 =>
    thenDo
      (if up = 0 then
        match st1.labels.getLast? with
        | some Label.Backward => wr (Ck.str "continue ") st1
        | _ => wr (Ck.str "break ") st1
      else if up < st1.labels.length then
        thenDo (wr (Ck.setDesired (st1.labels.length - 1 - up)) st1) (fun st2 =>
          wr (Ck.str "break ") st2)
      else ([], st1, R.fatal))
      (fun st3 => wr (Ck.str "end ") st3))

/-- `wasm_ast::node::Statement` as consumed by the structured backend (the
`Else` node is inlined as the optional `falsey` body of `ifS`). -/
inductive Stmt
  | unreachable
  | memorize (var : ℕ) (value : String)
  | forward (body : List Stmt)
  | backward (body : List Stmt)
  | ifS (cond : String) (truthy : List Stmt) (falsey : Option (List Stmt))
  | br (target : ℕ)
  | brIf (cond : String) (target : ℕ)
  | brTable (cond : String) (table : List ℕ) (default : ℕ)
  | ret (list : String)
  | call (func : ℕ) (result : ℕ × ℕ) (param_list : String)
  | callIndirect (tbl : ℕ) (index : String) (result : ℕ × ℕ) (param_list : String)
  | setLocal (var : ℕ) (value : String)
  | setGlobal (var : ℕ) (value : String)
  | storeAt (what : String) (pointer : String) (offset : ℕ) (value : String)

/-- The entry loop of `BrTable::write`: each branch target is written as a
raw table entry `"{d}, "`. -/
def entries_write : List ℕ → St → List Ck × St × R
  | [], st => okE st
  | d :: rest, st => thenDo (wr (Ck.tableEntry d) st) (fun st => entries_write rest st)

/-- Modelled from the spec: `write_ascending` (an output-formatting helper
not under `src/`, §6), as in the goto backend. -/
def write_ascending (p : String) (lo hi : ℕ) : String :=
  String.intercalate ", " ((List.range (hi - lo)).map (fun i => p ++ "_" ++ toString (lo + i)))

/-- Modelled from the spec: `write_variable` (a manager helper not under
`src/`, §4.1, §4.4), as in the goto backend. -/
def write_variable (var : ℕ) (st : St) : List Ck × St × R :=
  if var < st.num_param then wr (Ck.str ("param_" ++ toString var ++ " ")) st
  else wr (Ck.str ("loc_" ++ toString (var - st.num_param) ++ " ")) st

/-- `write_call_store`, identical to the goto backend's. -/
def write_call_store (result : ℕ × ℕ) (st : St) : List Ck × St × R :=
  if result.2 ≤ result.1 then okE st
  else
    thenDo (wr (Ck.str (write_ascending "reg" result.1 result.2)) st) (fun st =>
      wr (Ck.str " = ") st)

mutual
/-- `Statement::write` of the structured backend: dispatch on the statement
kind.  `Forward`, `Backward` and `If` each push one frame, wrap their body
in a single-iteration `while true do … break end`, pop, and then emit the
post-check gadget via `write_br_gadget`. -/
def stmt_write : Stmt → St → List Ck × St × R
  | .unreachable, st => wr (Ck.str "error(\"out of code bounds\")") st
  | .memorize var value, st =>
    thenDo (wr (Ck.str ("reg_" ++ toString var ++ " = ")) st) (fun st =>
      wr (Ck.expr value) st)
  | .forward body, st =>
    let p := push_label Label.Forward st
    thenDo (wr (Ck.str "while true do ") p.2) (fun st =>
      thenDo (stmts_write body st) (fun st =>
        thenDo (wr (Ck.str "break ") st) (fun st =>
          thenDo (wr (Ck.str "end ") st) (fun st =>
            write_br_gadget (pop_label st).labels p.1 (pop_label st)))))
  | .backward body, st =>
    let p := push_label Label.Backward st
    thenDo (wr (Ck.str "while true do ") p.2) (fun st =>
      thenDo (stmts_write body st) (fun st =>
        thenDo (wr (Ck.str "break ") st) (fun st =>
          thenDo (wr (Ck.str "end ") st) (fun st =>
            write_br_gadget (pop_label st).labels p.1 (pop_label st)))))
  | .ifS cond truthy falsey, st =>
    let p := push_label Label.If st
    thenDo (wr (Ck.str "while true do ") p.2) (fun st =>
      thenDo (wr (Ck.str "if ") st) (fun st =>
        thenDo (wr (Ck.expr cond) st) (fun st =>
          thenDo (wr (Ck.str "~= 0 then ") st) (fun st =>
            thenDo (stmts_write truthy st) (fun st =>
              thenDo
                (match falsey with
                 | some body =>
                   thenDo (wr (Ck.str "else ") st) (fun st => stmts_write body st)
                 | none => okE st)
                (fun st =>
                  thenDo (wr (Ck.str "end ") st) (fun st =>
                    thenDo (wr (Ck.str "break ") st) (fun st =>
                      thenDo (wr (Ck.str "end ") st) (fun st =>
                        write_br_gadget (pop_label st).labels p.1 (pop_label st))))))))))
  | .br target, st => write_br_at target st
  | .brIf cond target, st =>
    thenDo (wr (Ck.str "if ") st) (fun st =>
      thenDo (wr (Ck.expr cond) st) (fun st =>
        thenDo (wr (Ck.str "~= 0 then ") st) (fun st =>
          thenDo (write_br_at target st) (fun st => wr (Ck.str "end ") st))))
  | .brTable cond table default, st =>
    thenDo (wr (Ck.str "do ") st) (fun st =>
      thenDo (wr (Ck.str "local temp = \x7b") st) (fun st =>
        thenDo
          (if table.isEmpty then okE st
           else thenDo (wr (Ck.str "[0] =") st) (fun st => entries_write table st))
          (fun st =>
            thenDo (wr (Ck.str "\x7d ") st) (fun st =>
              thenDo (wr (Ck.str "desired = temp[") st) (fun st =>
                thenDo (wr (Ck.expr cond) st) (fun st =>
                  thenDo (wr (Ck.orDefault default) st) (fun st =>
                    thenDo (wr (Ck.str "break ") st) (fun st =>
                      wr (Ck.str "end ") st))))))))
  | .ret list, st =>
    thenDo (wr (Ck.str "do return ") st) (fun st =>
      thenDo (wr (Ck.expr list) st) (fun st => wr (Ck.str "end ") st))
  | .call func result param_list, st =>
    thenDo (write_call_store result st) (fun st =>
      thenDo (wr (Ck.str ("FUNC_LIST[" ++ toString func ++ "](")) st) (fun st =>
        thenDo (wr (Ck.expr param_list) st) (fun st => wr (Ck.str ")") st)))
  | .callIndirect tbl index result param_list, st =>
    thenDo (write_call_store result st) (fun st =>
      thenDo (wr (Ck.str ("TABLE_LIST[" ++ toString tbl ++ "].data[")) st) (fun st =>
        thenDo (wr (Ck.expr index) st) (fun st =>
          thenDo (wr (Ck.str "](") st) (fun st =>
            thenDo (wr (Ck.expr param_list) st) (fun st => wr (Ck.str ")") st)))))
  | .setLocal var value, st =>
    thenDo (write_variable var st) (fun st =>
      thenDo (wr (Ck.str "= ") st) (fun st => wr (Ck.expr value) st))
  | .setGlobal var value, st =>
    thenDo (wr (Ck.str ("GLOBAL_LIST[" ++ toString var ++ "].value = ")) st) (fun st =>
      wr (Ck.expr value) st)
  | .storeAt what pointer offset value, st =>
    thenDo (wr (Ck.str ("store_" ++ what ++ "(memory_at_0, ")) st) (fun st =>
      thenDo (wr (Ck.expr pointer) st) (fun st =>
        thenDo (wr (Ck.str ("+ " ++ toString offset ++ ", ")) st) (fun st =>
          thenDo (wr (Ck.expr value) st) (fun st => wr (Ck.str ")") st))))

/-- Sequential emission of a statement list (`iter().try_for_each`). -/
def stmts_write : List Stmt → St → List Ck × St × R
  | [], st => okE st
  | s :: rest, st => thenDo (stmt_write s st) (fun st => stmts_write rest st)
end

/-- The levels of all sentinel writes (`desired = {level}`) in a chunk
list. -/
def sentinelWrites (cs : List Ck) : List ℕ :=
  cs.filterMap (fun c => match c with | .setDesired l => some l | _ => none)

/-- The compared levels of all post-check gadgets (`if desired == {level}`)
in a chunk list. -/
def gadgetLevels (cs : List Ck) : List ℕ :=
  cs.filterMap (fun c => match c with | .ifDesiredEq l => some l | _ => none)

/-- The post-check gadget chunk sequence that a wrapper emission appends
after its `end`, as a function of the label stack surrounding the wrapper
(empty at the outermost level; loop-like when the enclosing wrapper is a
`Backward`; the compared level is the enclosing wrapper's depth). -/
def gadget_chunks (labels : List Label) : List Ck :=
  match labels.getLast? with
  | none => []
  | some k =>
    [Ck.str "if desired then ", Ck.ifDesiredEq (labels.length - 1), Ck.str "desired = nil "] ++
      (if k = Label.Backward then [Ck.str "continue "] else []) ++
      [Ck.str "end ", Ck.str "break ", Ck.str "end "]

end luau

/-- A structured form of the Luau statement subset that the structured-only
backend emits, used to give the emitted text an executable semantics:
single-iteration/looping `while true do`, truthiness tests, the sentinel
test-and-clear forms, `break`/`continue`, and opaque text. -/
inductive L
  | brk
  | cont
  | setDesired (n : ℕ)
  | clearDesired
  | raw (s : String)
  | loop (body : List L)
  | ifNeZero (cond : String) (truthy : List L)
  | ifDesired (body : List L)
  | ifDesiredEq (n : ℕ) (body : List L)
  | blockDo (body : List L)

mutual
/-- Flatten a structured statement to the chunk texts the backend writes for
it. -/
def flatS : L → List String
  | .brk => ["break "]
  | .cont => ["continue "]
  | .setDesired n => ["desired = " ++ toString n ++ " "]
  | .clearDesired => ["desired = nil "]
  | .raw s => [s]
  | .loop body => "while true do " :: (flatL body ++ ["end "])
  | .ifNeZero cond truthy => "if " :: cond :: "~= 0 then " :: (flatL truthy ++ ["end "])
  | .ifDesired body => "if desired then " :: (flatL body ++ ["end "])
  | .ifDesiredEq n body =>
    ("if desired == " ++ toString n ++ " then ") :: (flatL body ++ ["end "])
  | .blockDo body => "do " :: (flatL body ++ ["end "])

/-- Flatten a structured statement list. -/
def flatL : List L → List String
  | [] => []
  | s :: rest => flatS s ++ flatL rest
end

/-- Control-flow outcome of executing a Luau statement: fall through,
`break` the nearest loop, or `continue` it. -/
inductive LFlow
  | norm
  | brk
  | cont
deriving DecidableEq, Repr

mutual
/-- Fuel-bounded big-step execution of one structured Luau statement.  The
state is the sentinel variable `desired : Option ℕ` (`none` is Lua `nil`);
`env` gives the truth value of each opaque condition's `~= 0` test.  Lua
semantics: `if desired then` tests non-`nil` (any number is truthy),
`while true do` repeats until `break`, `continue` re-enters the loop. -/
def execS (env : String → Bool) : ℕ → L → Option ℕ → Option (Option ℕ × LFlow)
  | 0, _, _ => none
  | _ + 1, .brk, d => some (d, LFlow.brk)
  | _ + 1, .cont, d => some (d, LFlow.cont)
  | _ + 1, .setDesired n, _ => some (some n, LFlow.norm)
  | _ + 1, .clearDesired, _ => some (none, LFlow.norm)
  | _ + 1, .raw _, d => some (d, LFlow.norm)
  | fuel + 1, .blockDo body, d => execL env fuel body d
  | fuel + 1, .ifDesired body, d =>
    match d with
    | none => some (none, LFlow.norm)
    | some m => execL env fuel body (some m)
  | fuel + 1, .ifDesiredEq n body, d =>
    match d with
    | some m => if m = n then execL env fuel body (some m) else some (some m, LFlow.norm)
    | none => some (none, LFlow.norm)
  | fuel + 1, .ifNeZero cond truthy, d =>
    if env cond then execL env fuel truthy d else some (d, LFlow.norm)
  | fuel + 1, .loop body, d =>
    match execL env fuel body d with
    | none => none
    | some (d', LFlow.brk) => some (d', LFlow.norm)
    | some (d', _) => execS env fuel (.loop body) d'

/-- Fuel-bounded big-step execution of a statement sequence; a non-`norm`
flow aborts the rest of the sequence. -/
def execL (env : String → Bool) : ℕ → List L → Option ℕ → Option (Option ℕ × LFlow)
  | 0, _, _ => none
  | _ + 1, [], d => some (d, LFlow.norm)
  | fuel + 1, s :: rest, d =>
    match execS env fuel s d with
    | some (d', LFlow.norm) => execL env fuel rest d'
    | other => other
end

/-- The structured form of the post-check gadget emitted by `br_target`. -/
def gadgetL (level : ℕ) (in_loop : Bool) : L :=
  L.ifDesired
    (L.ifDesiredEq level ([L.clearDesired] ++ (if in_loop then [L.cont] else [])) :: [L.brk])

/-- The truth-environment making every emitted condition test pass. -/
def envTrue : String → Bool := fun _ => true

namespace luajit

/-- Number of label anchors in a chunk list. -/
def anchorCount (cs : List Ck) : ℕ :=
  cs.countP (fun c => match c with | .anchor _ => true | _ => false)

/-- The labels of all goto chunks in a chunk list. -/
def gotoLabels (cs : List Ck) : List ℕ :=
  cs.filterMap (fun c => match c with | .goto l => some l | _ => none)

/-- The labels of all anchor chunks in a chunk list. -/
def anchorLabels (cs : List Ck) : List ℕ :=
  cs.filterMap (fun c => match c with | .anchor l => some l | _ => none)

mutual
/-- Number of `Forward` plus `Backward` nodes in a statement (the arms of an
`If` are `Forward` nodes). -/
def countFB : StmtJ → ℕ
  | .forward f => countFwd f
  | .backward f => countFwd f
  | .ifS _ truthy falsey =>
    countFwd truthy + (match falsey with | some f => countFwd f | none => 0)
  | _ => 0

/-- Number of `Forward` plus `Backward` nodes in a statement list. -/
def countFBs : List StmtJ → ℕ
  | [] => 0
  | s :: rest => countFB s + countFBs rest

/-- Number of `Forward` plus `Backward` nodes rooted at one block payload. -/
def countFwd : Fwd → ℕ
  | .mk code _ => 1 + countFBs code
end

/-- Number of maximal constant-value runs in a list. -/
def runCount : List ℕ → ℕ
  | [] => 0
  | [_] => 1
  | a :: b :: rest => (if a = b then 0 else 1) + runCount (b :: rest)

/-- `covers tuples p n` holds when the `(start, end, _)` ranges of `tuples`
partition the index interval `[p, n)` exactly once, in ascending order. -/
def covers : List (ℕ × ℕ × ℕ) → ℕ → ℕ → Bool
  | [], p, n => p == n
  | (start, stop, _) :: rest, p, n =>
    start == p && Nat.ble p stop && Nat.blt stop n && covers rest (stop + 1) n

end luajit

/-- C2's input: `Br(1)` inside an `If` nested one level inside a `Backward`
loop (the `Backward` is the outermost construct). -/
def c2_stmt : luau.Stmt :=
  luau.Stmt.backward [luau.Stmt.ifS "COND" [luau.Stmt.br 1] none]

/-- C2's initial manager state: empty label stack, ample sink. -/
def c2_st : luau.St := { labels := [], counter := 0, num_param := 0, sink := 30 }

/-- C2's lowered output. -/
def c2_out : List luau.Ck := (luau.stmt_write c2_stmt c2_st).1

/-- The structured form of C2's lowered `If` wrapper. -/
def c2_if_wrapper : L :=
  L.loop [L.ifNeZero "COND" [L.blockDo [L.setDesired 0, L.brk]], L.brk]

/-- The structured form of the body of C2's lowered `Backward` wrapper: the
`If` wrapper, then the post-check gadget (compared level 0, loop-like), then
the closing `break`. -/
def c2_loop_body : List L := [c2_if_wrapper, gadgetL 0 true, L.brk]

/-- The structured form of C2's whole lowered output. -/
def c2_prog : L := L.loop c2_loop_body

/-- C7's input function: no parameters or locals, two temporary slots, one
result, empty body. -/
def c7_fd : luajit.FuncData :=
  { num_param := 0, num_result := 1, local_data := [], num_stack := 2, code := .mk [] none }

/-- C7's initial manager state. -/
def c7_st : luajit.St := { labels := [], counter := 0, num_param := 0, sink := 30 }

/-- C7's emitted function text. -/
def c7_out : List luajit.Ck := (luajit.funcData_write c7_fd c7_st).1

/-- C4's structured-backend scope state: four enclosing `Forward` frames, so
that a branch depth of 3 is in range. -/
def c4_st : luau.St :=
  { labels := [luau.Label.Forward, luau.Label.Forward, luau.Label.Forward, luau.Label.Forward],
    counter := 0, num_param := 0, sink := 30 }

/-- C4: the structured backend's output for an empty `BrTable` with
`default = 3`. -/
def c4_bt_out : List luau.Ck := (luau.stmt_write (luau.Stmt.brTable "COND" [] 3) c4_st).1

/-- C4: the structured backend's output for `Br(3)` at the same scope
state. -/
def c4_br_out : List luau.Ck := (luau.stmt_write (luau.Stmt.br 3) c4_st).1

/-- C5's failing input: a non-empty `BrTable` (`targets = [0]`,
`default = 1`) lowered by the structured backend under a `Backward` frame
with an `If` frame innermost. -/
def c5_st : luau.St :=
  { labels := [luau.Label.Backward, luau.Label.If], counter := 0, num_param := 0, sink := 30 }

/-- C5: the structured backend's output at the failing input. -/
def c5_out : List luau.Ck := (luau.stmt_write (luau.Stmt.brTable "COND" [0] 1) c5_st).1

/-- C6's concrete witness tree: a `Forward` containing a `Backward` whose
terminator branches out to the enclosing `Forward`. -/
def c6_tree : luajit.StmtJ :=
  luajit.StmtJ.forward
    (luajit.Fwd.mk [luajit.StmtJ.backward (luajit.Fwd.mk [] (some (luajit.Term.br 1)))] none)

/-! ### Helper lemmas for the jump-table condenser -/

theorem lj_run_end_bounds (list : List ℕ) : ∀ index, index < list.length →
    index + 1 ≤ luajit.run_end list index ∧ luajit.run_end list index ≤ list.length := by
  refine luajit.run_end.induct list
      (fun i => i < list.length →
        i + 1 ≤ luajit.run_end list i ∧ luajit.run_end list i ≤ list.length) ?_ ?_ ?_
  · intro x hx h
    rw [luajit.run_end, if_pos hx]
    omega
  · intro x hx hne h
    rw [luajit.run_end, if_neg hx, if_pos hne]
    omega
  · intro x hx hne ih h
    rw [luajit.run_end, if_neg hx, if_neg hne]
    have := ih (by omega)
    omega

theorem lj_run_end_const (list : List ℕ) : ∀ index j, index ≤ j →
    j < luajit.run_end list index → list.getD j 0 = list.getD index 0 := by
  refine luajit.run_end.induct list
      (fun i => ∀ j, i ≤ j → j < luajit.run_end list i → list.getD j 0 = list.getD i 0)
      ?_ ?_ ?_
  · intro x hx j hj hlt
    rw [luajit.run_end, if_pos hx] at hlt
    have : j = x := by omega
    rw [this]
  · intro x hx hne j hj hlt
    rw [luajit.run_end, if_neg hx, if_pos hne] at hlt
    have : j = x := by omega
    rw [this]
  · intro x hx hne ih j hj hlt
    rw [luajit.run_end, if_neg hx, if_neg hne] at hlt
    have heq : list.getD x 0 = list.getD (x + 1) 0 := not_ne_iff.mp hne
    by_cases hjx : j = x
    · rw [hjx]
    · have := ih j (by omega) hlt
      rw [this, ← heq]

theorem lj_run_end_break (list : List ℕ) : ∀ index, index < list.length →
    luajit.run_end list index = list.length ∨
      (luajit.run_end list index < list.length ∧
        list.getD (luajit.run_end list index - 1) 0 ≠
          list.getD (luajit.run_end list index) 0) := by
  refine luajit.run_end.induct list
      (fun i => i < list.length →
        luajit.run_end list i = list.length ∨
          (luajit.run_end list i < list.length ∧
            list.getD (luajit.run_end list i - 1) 0 ≠ list.getD (luajit.run_end list i) 0))
      ?_ ?_ ?_
  · intro x hx h
    left
    rw [luajit.run_end, if_pos hx]
    omega
  · intro x hx hne h
    right
    rw [luajit.run_end, if_neg hx, if_pos hne]
    simp only [Nat.add_sub_cancel]
    exact ⟨by omega, hne⟩
  · intro x hx hne ih h
    rw [luajit.run_end, if_neg hx, if_neg hne]
    exact ih (by omega)

theorem lj_getD_drop (l : List ℕ) (i j : ℕ) : (l.drop i).getD j 0 = l.getD (i + j) 0 := by
  simp [List.getD_eq_getD_get?, List.getElem?_drop]

theorem lj_getD_take (l : List ℕ) (n j : ℕ) (h : j < n) :
    (l.take n).getD j 0 = l.getD j 0 := by
  simp [List.getD_eq_getD_get?, List.getElem?_take_of_lt h]

theorem lj_runCount_head_run : ∀ (seg l2 : List ℕ) (c : ℕ), seg ≠ [] →
    (∀ j < seg.length, seg.getD j 0 = c) →
    (l2 = [] ∨ l2.getD 0 0 ≠ c) →
    luajit.runCount (seg ++ l2) = 1 + luajit.runCount l2
  | [], _, _, hne, _, _ => absurd rfl hne
  | [a], l2, c, _, hconst, hbreak => by
    have ha : a = c := by simpa using hconst 0 (by simp)
    rcases hbreak with h2 | h2
    · simp [h2, luajit.runCount]
    · cases l2 with
      | nil => simp [luajit.runCount]
      | cons h t =>
        have hne2 : a ≠ h := by
          intro hh
          exact h2 (by simp [← hh, ha])
        simp [luajit.runCount, hne2]
  | a :: b :: rest, l2, c, _, hconst, hbreak => by
    have ha : a = c := by simpa using hconst 0 (by simp)
    have hb : b = c := by simpa using hconst 1 (by simp)
    have hih := lj_runCount_head_run (b :: rest) l2 c (by simp)
      (fun j hj => by simpa using hconst (j + 1) (by simpa using hj)) hbreak
    have hab : a = b := by rw [ha, hb]
    calc luajit.runCount ((a :: b :: rest) ++ l2)
        = luajit.runCount (a :: b :: (rest ++ l2)) := by simp
      _ = (if a = b then 0 else 1) + luajit.runCount (b :: (rest ++ l2)) := rfl
      _ = luajit.runCount ((b :: rest) ++ l2) := by simp [hab]
      _ = 1 + luajit.runCount l2 := hih

theorem lj_condense_length (list : List ℕ) : ∀ index, index < list.length →
    (luajit.condense_go list index).length = luajit.runCount (list.drop index) := by
  refine luajit.condense_go.induct list
      (fun i => i < list.length →
        (luajit.condense_go list i).length = luajit.runCount (list.drop i)) ?_ ?_
  · intro x hx ih h
    rw [luajit.condense_go, dif_pos hx]
    have hb := lj_run_end_bounds list x hx
    by_cases hel : luajit.run_end list x < list.length
    · have hlen := ih hel
      have hdd : (list.drop x).drop (luajit.run_end list x - x) = list.drop (luajit.run_end list x) := by
        rw [List.drop_drop]
        congr 1
        omega
      have hsplit : list.drop x =
          (list.drop x).take (luajit.run_end list x - x) ++ list.drop (luajit.run_end list x) := by
        conv_lhs => rw [← List.take_append_drop (luajit.run_end list x - x) (list.drop x)]
        rw [hdd]
      have hseg_len : ((list.drop x).take (luajit.run_end list x - x)).length =
          luajit.run_end list x - x := by
        simp only [List.length_take, List.length_drop]
        omega
      have hconst : ∀ j < ((list.drop x).take (luajit.run_end list x - x)).length,
          ((list.drop x).take (luajit.run_end list x - x)).getD j 0 = list.getD x 0 := by
        intro j hj
        rw [hseg_len] at hj
        rw [lj_getD_take _ _ _ hj, lj_getD_drop]
        exact lj_run_end_const list x (x + j) (by omega) (by omega)
      have hbreak2 : list.drop (luajit.run_end list x) = [] ∨
          (list.drop (luajit.run_end list x)).getD 0 0 ≠ list.getD x 0 := by
        right
        rw [lj_getD_drop]
        simp only [Nat.add_zero]
        rcases lj_run_end_break list x hx with hcase | ⟨_, hne⟩
        · omega
        · have hconst2 : list.getD (luajit.run_end list x - 1) 0 = list.getD x 0 :=
            lj_run_end_const list x (luajit.run_end list x - 1) (by omega) (by omega)
          rw [← hconst2]
          exact fun hcontra => hne hcontra.symm
      have hrun := lj_runCount_head_run ((list.drop x).take (luajit.run_end list x - x))
        (list.drop (luajit.run_end list x)) (list.getD x 0)
        (List.length_pos.mp (by rw [hseg_len]; omega)) hconst hbreak2
      rw [← hsplit] at hrun
      simp only [List.length_cons, hlen, hrun]
      omega
    · have hnil : luajit.condense_go list (luajit.run_end list x) = [] := by
        rw [luajit.condense_go, dif_neg (by omega)]
      have hconst : ∀ j < (list.drop x).length, (list.drop x).getD j 0 = list.getD x 0 := by
        intro j hj
        simp only [List.length_drop] at hj
        rw [lj_getD_drop]
        exact lj_run_end_const list x (x + j) (by omega) (by omega)
      have hrun := lj_runCount_head_run (list.drop x) [] (list.getD x 0)
        (List.length_pos.mp (by simp only [List.length_drop]; omega)) hconst (Or.inl rfl)
      simp only [List.append_nil] at hrun
      rw [hnil]
      simp only [List.length_cons, List.length_nil, hrun, luajit.runCount]
  · intro x hx h
    omega

theorem lj_condense_covers (list : List ℕ) : ∀ index, index ≤ list.length →
    luajit.covers (luajit.condense_go list index) index list.length = true := by
  refine luajit.condense_go.induct list
      (fun i => i ≤ list.length →
        luajit.covers (luajit.condense_go list i) i list.length = true) ?_ ?_
  · intro x hx ih h
    rw [luajit.condense_go, dif_pos hx]
    have hb := lj_run_end_bounds list x hx
    have hsucc : luajit.run_end list x - 1 + 1 = luajit.run_end list x := by omega
    simp only [luajit.covers, hsucc, Bool.and_eq_true, beq_iff_eq, Nat.ble_eq,
      Nat.blt_eq]
    exact ⟨⟨⟨trivial, by omega⟩, by omega⟩, ih (by omega)⟩
  · intro x hx h
    have : x = list.length := by omega
    rw [luajit.condense_go, dif_neg hx]
    simp [luajit.covers, this]

theorem lj_condense_const (list : List ℕ) : ∀ index,
    ∀ t ∈ luajit.condense_go list index, ∀ i, t.1 ≤ i → i ≤ t.2.1 →
      list.getD i 0 = t.2.2 := by
  refine luajit.condense_go.induct list
      (fun idx => ∀ t ∈ luajit.condense_go list idx, ∀ i, t.1 ≤ i → i ≤ t.2.1 →
        list.getD i 0 = t.2.2) ?_ ?_
  · intro x hx ih t ht i h1 h2
    rw [luajit.condense_go, dif_pos hx] at ht
    have hb := lj_run_end_bounds list x hx
    rcases List.mem_cons.mp ht with hhd | htl
    · subst hhd
      simp only at h1 h2 ⊢
      exact lj_run_end_const list x i h1 (by omega)
    · exact ih t htl i h1 h2
  · intro x hx t ht i h1 h2
    rw [luajit.condense_go, dif_neg hx] at ht
    simp at ht

theorem lj_condense_chain (list : List ℕ) : ∀ index, index < list.length →
    List.Chain' (fun a b : ℕ × ℕ × ℕ => a.2.2 ≠ b.2.2) (luajit.condense_go list index) ∧
      (luajit.condense_go list index).head? =
        some (index, luajit.run_end list index - 1, list.getD index 0) := by
  refine luajit.condense_go.induct list
      (fun i => i < list.length →
        List.Chain' (fun a b : ℕ × ℕ × ℕ => a.2.2 ≠ b.2.2) (luajit.condense_go list i) ∧
          (luajit.condense_go list i).head? =
            some (i, luajit.run_end list i - 1, list.getD i 0)) ?_ ?_
  · intro x hx ih h
    rw [luajit.condense_go, dif_pos hx]
    have hb := lj_run_end_bounds list x hx
    refine ⟨?_, rfl⟩
    by_cases hel : luajit.run_end list x < list.length
    · obtain ⟨ihc, ihh⟩ := ih hel
      refine List.chain'_cons'.mpr ⟨?_, ihc⟩
      intro b hb2
      rw [ihh] at hb2
      simp only [Option.mem_def, Option.some.injEq] at hb2
      subst hb2
      simp only
      rcases lj_run_end_break list x hx with hcase | ⟨_, hne⟩
      · omega
      · have hconst2 : list.getD (luajit.run_end list x - 1) 0 = list.getD x 0 :=
          lj_run_end_const list x (luajit.run_end list x - 1) (by omega) (by omega)
        rw [← hconst2]
        exact hne
    · have hnil : luajit.condense_go list (luajit.run_end list x) = [] := by
        rw [luajit.condense_go, dif_neg (by omega)]
      rw [hnil]
      simp
  · intro x hx h
    omega

/-- C3: for every input array of branch targets, `condense_jump_table`
returns exactly as many tuples as there are maximal constant-target runs
(`runCount`), in ascending order partitioning the index range `0 .. N-1`
exactly once (`covers`), with every index in `[start, end]` mapping to the
tuple's target and no two adjacent tuples sharing a target; in particular
`[0,0,0,1,1,2]` condenses to `[(0,2,0),(3,4,1),(5,5,2)]`. -/
theorem c3_theorem : ∀ list : List ℕ,
    (luajit.condense_jump_table list).length = luajit.runCount list ∧
    luajit.covers (luajit.condense_jump_table list) 0 list.length = true ∧
    (∀ t ∈ luajit.condense_jump_table list, ∀ i, t.1 ≤ i → i ≤ t.2.1 →
      list.getD i 0 = t.2.2) ∧
    List.Chain' (fun a b : ℕ × ℕ × ℕ => a.2.2 ≠ b.2.2) (luajit.condense_jump_table list) ∧
    luajit.condense_jump_table [0, 0, 0, 1, 1, 2] = [(0, 2, 0), (3, 4, 1), (5, 5, 2)] := by
  intro list
  refine ⟨?_, ?_, ?_, ?_, ?_⟩
  · cases list with
    | nil =>
      rw [luajit.condense_jump_table, luajit.condense_go, dif_neg (by simp)]
      rfl
    | cons a t =>
      have := lj_condense_length (a :: t) 0 (by simp)
      simpa [luajit.condense_jump_table] using this
  · exact lj_condense_covers list 0 (by omega)
  · exact fun t ht => lj_condense_const list 0 t ht
  · cases list with
    | nil =>
      rw [luajit.condense_jump_table, luajit.condense_go, dif_neg (by simp)]
      simp
    | cons a t => exact (lj_condense_chain (a :: t) 0 (by simp)).1
  · have r2 : luajit.run_end [0, 0, 0, 1, 1, 2] 2 = 3 := by rw [luajit.run_end]; norm_num
    have r1 : luajit.run_end [0, 0, 0, 1, 1, 2] 1 = 3 := by rw [luajit.run_end]; norm_num [r2]
    have r0 : luajit.run_end [0, 0, 0, 1, 1, 2] 0 = 3 := by rw [luajit.run_end]; norm_num [r1]
    have r4 : luajit.run_end [0, 0, 0, 1, 1, 2] 4 = 5 := by rw [luajit.run_end]; norm_num
    have r3 : luajit.run_end [0, 0, 0, 1, 1, 2] 3 = 5 := by rw [luajit.run_end]; norm_num [r4]
    have r5 : luajit.run_end [0, 0, 0, 1, 1, 2] 5 = 6 := by rw [luajit.run_end]; norm_num
    have k6 : luajit.condense_go [0, 0, 0, 1, 1, 2] 6 = [] := by
      rw [luajit.condense_go]; norm_num
    have k5 : luajit.condense_go [0, 0, 0, 1, 1, 2] 5 = [(5, 5, 2)] := by
      rw [luajit.condense_go]; norm_num [r5, k6]
    have k3 : luajit.condense_go [0, 0, 0, 1, 1, 2] 3 = [(3, 4, 1), (5, 5, 2)] := by
      rw [luajit.condense_go]; norm_num [r3, k5]
    have k0 : luajit.condense_go [0, 0, 0, 1, 1, 2] 0 = [(0, 2, 0), (3, 4, 1), (5, 5, 2)] := by
      rw [luajit.condense_go]; norm_num [r0, k3]
    simpa [luajit.condense_jump_table] using k0

/-! ### Toolkit lemmas for the emission combinators -/

theorem thenDo_dest {α χ : Type} (a : List χ × MSt α × R) (f : MSt α → List χ × MSt α × R) :
    (a.2.2 = R.ok ∧ thenDo a f = (a.1 ++ (f a.2.1).1, (f a.2.1).2.1, (f a.2.1).2.2)) ∨
      (a.2.2 ≠ R.ok ∧ thenDo a f = a) := by
  obtain ⟨cs1, st1, r1⟩ := a
  cases r1
  · left
    exact ⟨rfl, rfl⟩
  · right
    exact ⟨by simp, rfl⟩
  · right
    exact ⟨by simp, rfl⟩

theorem thenDo_ok {α χ : Type} {a : List χ × MSt α × R} {f : MSt α → List χ × MSt α × R}
    {cs : List χ} {st : MSt α} (h : thenDo a f = (cs, st, R.ok)) :
    ∃ cs1 st1 cs2, a = (cs1, st1, R.ok) ∧ f st1 = (cs2, st, R.ok) ∧ cs = cs1 ++ cs2 := by
  rcases thenDo_dest a f with ⟨hok, heq⟩ | ⟨hne, heq⟩
  · rw [heq] at h
    obtain ⟨cs1, st1, r1⟩ := a
    simp only at hok
    subst hok
    refine ⟨cs1, st1, (f st1).1, rfl, ?_, ?_⟩
    · have h2 : (f st1).2.1 = st := congrArg (fun t => t.2.1) h
      have h3 : (f st1).2.2 = R.ok := congrArg (fun t => t.2.2) h
      calc f st1 = ((f st1).1, (f st1).2.1, (f st1).2.2) := rfl
        _ = ((f st1).1, st, R.ok) := by rw [h2, h3]
    · exact (congrArg (fun t => t.1) h).symm
  · rw [heq] at h
    exact absurd (congrArg (fun t => t.2.2) h) (by simpa using hne)

theorem wr_ok {α χ : Type} {c : χ} {st : MSt α} {cs : List χ} {st' : MSt α}
    (h : wr c st = (cs, st', R.ok)) :
    cs = [c] ∧ st' = { st with sink := st.sink - 1 } ∧ st.sink ≠ 0 := by
  by_cases hs : st.sink = 0
  · rw [wr, if_pos hs] at h
    exact absurd (congrArg (fun t => t.2.2) h) (by simp)
  · rw [wr, if_neg hs] at h
    exact ⟨(congrArg (fun t => t.1) h).symm, (congrArg (fun t => t.2.1) h).symm, hs⟩

theorem wr_labels {α χ : Type} (c : χ) (st : MSt α) : ((wr c st).2.1).labels = st.labels := by
  rw [wr]
  split <;> rfl

theorem wr_cases {α χ : Type} (c : χ) (st : MSt α) :
    wr c st = ([c], { st with sink := st.sink - 1 }, R.ok) ∨ wr c st = ([], st, R.ioErr) := by
  rw [wr]
  split
  · right
    rfl
  · left
    rfl

/-! ### C10 — Unreachable lowering -/

/-- C10: in both backends `Unreachable` lowers to exactly the single chunk
whose text is `error("out of code bounds")`; the manager state is untouched
apart from one sink unit, and the output contains no expression operand, no
goto or anchor, and no sentinel write or check. -/
theorem c10_theorem (stJ : luajit.St) (stU : luau.St) (hJ : 1 ≤ stJ.sink) (hU : 1 ≤ stU.sink) :
    luajit.term_write luajit.Term.unreachable stJ =
      ([luajit.Ck.str "error(\"out of code bounds\")"], { stJ with sink := stJ.sink - 1 }, R.ok) ∧
    luau.stmt_write luau.Stmt.unreachable stU =
      ([luau.Ck.str "error(\"out of code bounds\")"], { stU with sink := stU.sink - 1 }, R.ok) ∧
    luajit.render (luajit.Ck.str "error(\"out of code bounds\")") =
      "error(\"out of code bounds\")" ∧
    luau.render (luau.Ck.str "error(\"out of code bounds\")") =
      "error(\"out of code bounds\")" ∧
    luajit.gotoLabels [luajit.Ck.str "error(\"out of code bounds\")"] = [] ∧
    luajit.anchorCount [luajit.Ck.str "error(\"out of code bounds\")"] = 0 ∧
    luau.sentinelWrites [luau.Ck.str "error(\"out of code bounds\")"] = [] ∧
    luau.gadgetLevels [luau.Ck.str "error(\"out of code bounds\")"] = [] := by
  have hJ0 : stJ.sink ≠ 0 := by omega
  have hU0 : stU.sink ≠ 0 := by omega
  refine ⟨?_, ?_, rfl, rfl, rfl, rfl, rfl, rfl⟩
  · simp [luajit.term_write, wr, hJ0]
  · simp [luau.stmt_write, wr, hU0]

/-- C10 witness at a concrete state. -/
theorem c10_witness :
    luajit.term_write luajit.Term.unreachable ⟨[], 0, 0, 5⟩ =
      ([luajit.Ck.str "error(\"out of code bounds\")"], ⟨[], 0, 0, 4⟩, R.ok) ∧
    luau.stmt_write luau.Stmt.unreachable ⟨[], 0, 0, 5⟩ =
      ([luau.Ck.str "error(\"out of code bounds\")"], ⟨[], 0, 0, 4⟩, R.ok) :=
  ⟨(c10_theorem ⟨[], 0, 0, 5⟩ ⟨[], 0, 0, 5⟩ (by norm_num) (by norm_num)).1,
   (c10_theorem ⟨[], 0, 0, 5⟩ ⟨[], 0, 0, 5⟩ (by norm_num) (by norm_num)).2.1⟩

/-! ### C8 — branch resolution safety -/

/-- C8: whenever the branch depth is strictly below the number of active
frames, resolution succeeds in both backends — the goto backend's
`nth_back` lookup finds a frame and the structured backend's
`len - 1 - up` level computation stays in range — while an out-of-range
depth is a fatal outcome (a panic / `usize` underflow), never a recoverable
(`ioErr`-style) error; no depth validation precedes the hot path. -/
theorem c8_theorem (stJ : luajit.St) (stU : luau.St) (up : ℕ) :
    (up < stJ.labels.length → 1 ≤ stJ.sink →
      ∃ level, luajit.nth_back stJ.labels up = some level ∧
        luajit.write_br_at up stJ =
          ([luajit.Ck.goto level], { stJ with sink := stJ.sink - 1 }, R.ok)) ∧
    (0 < up → up < stU.labels.length → 4 ≤ stU.sink →
      luau.write_br_at up stU =
        ([luau.Ck.str "do ", luau.Ck.setDesired (stU.labels.length - 1 - up),
          luau.Ck.str "break ", luau.Ck.str "end "],
          { stU with sink := stU.sink - 4 }, R.ok)) ∧
    (stJ.labels.length ≤ up → luajit.write_br_at up stJ = ([], stJ, R.fatal)) ∧
    (stU.labels.length ≤ up → 0 < up → 1 ≤ stU.sink →
      luau.write_br_at up stU = ([luau.Ck.str "do "], { stU with sink := stU.sink - 1 }, R.fatal)) := by
  refine ⟨?_, ?_, ?_, ?_⟩
  · intro h hs
    have hlt : up < stJ.labels.reverse.length := by simpa using h
    obtain ⟨lv, hlv⟩ : ∃ lv, luajit.nth_back stJ.labels up = some lv := by
      rw [luajit.nth_back, List.get?_eq_get hlt]
      exact ⟨_, rfl⟩
    refine ⟨lv, hlv, ?_⟩
    simp only [luajit.write_br_at, hlv]
    rw [wr, if_neg (by omega)]
  · intro h0 hlen hs
    have e1 : ¬stU.sink = 0 := by omega
    have e2 : ¬stU.sink - 2 = 0 := by omega
    have e3 : ¬stU.sink - 3 = 0 := by omega
    have e4 : ¬stU.sink - 1 = 0 := by omega
    have h0' : ¬up = 0 := by omega
    simp [luau.write_br_at, wr, thenDo, e1, e2, e3, e4, h0', hlen, Nat.sub_sub]
  · intro h
    have hnone : luajit.nth_back stJ.labels up = none := by
      rw [luajit.nth_back]
      exact List.get?_eq_none.mpr (by simpa using h)
    rw [luajit.write_br_at, hnone]
  · intro h h0 hs
    have e1 : ¬stU.sink = 0 := by omega
    have h0' : ¬up = 0 := by omega
    have hnlt : ¬up < stU.labels.length := by omega
    simp [luau.write_br_at, wr, thenDo, e1, h0', hnlt]

/-- C8 witness at concrete states: in-range depth 1 resolves in both
backends; out-of-range depth 5 is fatal in both. -/
theorem c8_witness :
    (∃ level, luajit.nth_back [7, 9] 1 = some level ∧
      luajit.write_br_at 1 ⟨[7, 9], 0, 0, 3⟩ =
        ([luajit.Ck.goto level], ⟨[7, 9], 0, 0, 2⟩, R.ok)) ∧
    luau.write_br_at 1 ⟨[luau.Label.Backward, luau.Label.If], 0, 0, 9⟩ =
      ([luau.Ck.str "do ", luau.Ck.setDesired 0, luau.Ck.str "break ", luau.Ck.str "end "],
        ⟨[luau.Label.Backward, luau.Label.If], 0, 0, 5⟩, R.ok) ∧
    luajit.write_br_at 5 ⟨[7, 9], 0, 0, 3⟩ = ([], ⟨[7, 9], 0, 0, 3⟩, R.fatal) ∧
    luau.write_br_at 5 ⟨[luau.Label.Backward, luau.Label.If], 0, 0, 9⟩ =
      ([luau.Ck.str "do "], ⟨[luau.Label.Backward, luau.Label.If], 0, 0, 8⟩, R.fatal) :=
  ⟨(c8_theorem ⟨[7, 9], 0, 0, 3⟩ ⟨[luau.Label.Backward, luau.Label.If], 0, 0, 9⟩ 1).1
      (by decide) (by decide),
   (c8_theorem ⟨[7, 9], 0, 0, 3⟩ ⟨[luau.Label.Backward, luau.Label.If], 0, 0, 9⟩ 1).2.1
      (by decide) (by decide) (by decide),
   (c8_theorem ⟨[7, 9], 0, 0, 3⟩ ⟨[luau.Label.Backward, luau.Label.If], 0, 0, 9⟩ 5).2.2.1
      (by decide),
   (c8_theorem ⟨[7, 9], 0, 0, 3⟩ ⟨[luau.Label.Backward, luau.Label.If], 0, 0, 9⟩ 5).2.2.2
      (by decide) (by decide) (by decide)⟩

/-! ### C2 — the `Br(1)` inside `If` inside `Backward` example -/

/-- C2 counterexample: at the claim's input, the single post-check in the
lowered output compares level 0, which *equals* the sentinel value written
by `Br(1)` — so the claimed step "the `If` wrapper's post-check observes a
mismatched sentinel and re-raises" is false: no emitted post-check compares
a level different from the written sentinel. -/
theorem c2_counterexample :
    luau.gadgetLevels c2_out = [0] ∧ luau.sentinelWrites c2_out = [0] ∧
    ¬(∃ l ∈ luau.gadgetLevels c2_out, ∃ w ∈ luau.sentinelWrites c2_out, l ≠ w) := by
  decide

/-- C2 amended: the lowered output of `Br(1)` inside `If` inside `Backward`
writes the sentinel with the `Backward` frame's depth (0) and breaks the
`If` wrapper; the single post-check — emitted at the `If` wrapper's exit and
acting on the `Backward` wrapper — observes the *matching* sentinel, clears
it, and issues a native `continue`, so one pass of the loop body ends with
flow `cont` and sentinel `nil`. -/
theorem c2_theorem :
    c2_out.map luau.render = flatS c2_prog ∧
    execS envTrue 20 c2_if_wrapper none = some (some 0, LFlow.norm) ∧
    execL envTrue 20 c2_loop_body none = some (none, LFlow.cont) ∧
    (c2_out.drop 12).take 7 = luau.gadget_chunks [luau.Label.Backward] ∧
    luau.gadget_chunks [luau.Label.Backward] =
      [luau.Ck.str "if desired then ", luau.Ck.ifDesiredEq 0, luau.Ck.str "desired = nil ",
        luau.Ck.str "continue ", luau.Ck.str "end ", luau.Ck.str "break ", luau.Ck.str "end "] := by
  refine ⟨by decide, by decide, by decide, by decide, by decide⟩

/-! ### C4 — empty BrTable versus Br(default) -/

/-- C4 counterexample: in the structured-only backend an empty `BrTable`
with `default = 3` does not produce `Br(3)`'s code — and the discriminant
expression *is* emitted. -/
theorem c4_counterexample :
    ¬(c4_bt_out = c4_br_out ∧ luau.Ck.expr "COND" ∉ c4_bt_out) := by
  decide

/-- C4 amended: in the goto-capable backend an empty `BrTable` emits exactly
the code of `Br(default)` at the same scope state (for every state,
discriminant and default); in the structured-only backend the lowering
differs from `Br(default)`'s and the discriminant is emitted inside the
empty-table lookup (while `Br(3)`'s own code contains no expression
chunk). -/
theorem c4_theorem :
    (∀ (cond : String) (table_default : ℕ) (st : luajit.St),
      luajit.term_write (luajit.Term.brTable cond [] table_default) st =
        luajit.term_write (luajit.Term.br table_default) st) ∧
    c4_bt_out ≠ c4_br_out ∧
    luau.Ck.expr "COND" ∈ c4_bt_out ∧
    c4_br_out.filter (fun c => match c with | luau.Ck.expr _ => true | _ => false) = [] := by
  refine ⟨?_, by decide, by decide, by decide⟩
  intro cond table_default st
  simp [luajit.term_write]

/-! ### C5 — the structured backend's non-empty BrTable -/

/-- C5: evaluating the structured backend at the failing input
(`BrTable { targets = [0], default = 1 }` under a `Backward` frame with an
`If` frame innermost).  The emitted lookup stores the *raw* relative target
`0` and falls back to the raw default `1`, writes the looked-up raw value
into the sentinel and unconditionally breaks: there is no depth-0 fast path
(no `continue`, no conditional), and no conversion to the destination
frame depth — although `write_br_at` in the same file would write depth
`len - 1 - up = 1` for target `up = 0`, and `Br(0)`'s fast path at the
same state is a bare native break. -/
theorem c5_theorem :
    c5_out =
      [luau.Ck.str "do ", luau.Ck.str "local temp = \x7b", luau.Ck.str "[0] =",
        luau.Ck.tableEntry 0, luau.Ck.str "\x7d ", luau.Ck.str "desired = temp[",
        luau.Ck.expr "COND", luau.Ck.orDefault 1, luau.Ck.str "break ", luau.Ck.str "end "] ∧
    luau.Ck.str "continue " ∉ c5_out ∧
    luau.sentinelWrites c5_out = [] ∧
    c5_st.labels.length - 1 - 0 = 1 ∧
    luau.Ck.tableEntry 1 ∉ c5_out ∧
    (luau.stmt_write (luau.Stmt.br 0) c5_st).1 =
      [luau.Ck.str "do ", luau.Ck.str "break ", luau.Ck.str "end "] := by
  decide

/-! ### Label-stack lemmas -/

theorem thenDo_labels {α χ : Type} {base : List α} (a : List χ × MSt α × R)
    (f : MSt α → List χ × MSt α × R)
    (ha : (a.2.1).labels = base) (hf : ∀ st, ((f st).2.1).labels = st.labels) :
    ((thenDo a f).2.1).labels = base := by
  rcases thenDo_dest a f with ⟨_, heq⟩ | ⟨_, heq⟩ <;> rw [heq]
  · rw [hf]
    exact ha
  · exact ha

theorem okE_labels {α χ : Type} (st : MSt α) : ((okE (χ := χ) st).2.1).labels = st.labels := rfl

/-- One step of a wrapper's emission chain: threading the
labels-restored-on-success / labels-extended-in-general property through a
`thenDo`. -/
theorem lu_chain_step {α χ : Type} {o b f : List α} (a : List χ × MSt α × R)
    (k : MSt α → List χ × MSt α × R)
    (ha_ok : a.2.2 = R.ok → (a.2.1).labels = b)
    (ha_ext : ∃ e, (a.2.1).labels = o ++ e)
    (hk : ∀ st1, st1.labels = b →
      (((k st1).2.2 = R.ok → ((k st1).2.1).labels = f) ∧
        ∃ e, ((k st1).2.1).labels = o ++ e)) :
    ((thenDo a k).2.2 = R.ok → ((thenDo a k).2.1).labels = f) ∧
      ∃ e, ((thenDo a k).2.1).labels = o ++ e := by
  rcases thenDo_dest a k with ⟨hok, heq⟩ | ⟨hne, heq⟩ <;> rw [heq]
  · exact hk (a.2.1) (ha_ok hok)
  · exact ⟨fun hcontra => absurd hcontra hne, ha_ext⟩

theorem lu_br_target_labels (level : ℕ) (il : Bool) (st : luau.St) :
    ((luau.br_target level il st).2.1).labels = st.labels := by
  rw [luau.br_target]
  refine thenDo_labels _ _ (wr_labels _ _) fun st1 => ?_
  refine thenDo_labels _ _ (wr_labels _ _) fun st2 => ?_
  refine thenDo_labels _ _ (wr_labels _ _) fun st3 => ?_
  refine thenDo_labels _ _ ?_ fun st4 => ?_
  · cases il
    · exact okE_labels _
    · exact wr_labels _ _
  · refine thenDo_labels _ _ (wr_labels _ _) fun st5 => ?_
    exact thenDo_labels _ _ (wr_labels _ _) fun st6 => wr_labels _ _

theorem lu_gadget_labels (ll : List luau.Label) (rem : ℕ) (st : luau.St) :
    ((luau.write_br_gadget ll rem st).2.1).labels = st.labels := by
  rw [luau.write_br_gadget]
  rcases ll.getLast? with _ | lab
  · rfl
  · cases lab
    · exact lu_br_target_labels _ _ _
    · exact lu_br_target_labels _ _ _
    · exact lu_br_target_labels _ _ _

theorem lu_br_at_labels (up : ℕ) (st : luau.St) :
    ((luau.write_br_at up st).2.1).labels = st.labels := by
  rw [luau.write_br_at]
  refine thenDo_labels _ _ (wr_labels _ _) fun st1 => ?_
  refine thenDo_labels _ _ ?_ fun st3 => wr_labels _ _
  by_cases h : up = 0
  · simp only [h, if_pos]
    rcases hgl : st1.labels.getLast? with _ | lab
    · simp [wr_labels]
    · cases lab <;> simp [wr_labels]
  · rw [if_neg h]
    by_cases h2 : up < st1.labels.length
    · rw [if_pos h2]
      exact thenDo_labels _ _ (wr_labels _ _) fun st2 => wr_labels _ _
    · rw [if_neg h2]

theorem lu_entries_labels (l : List ℕ) : ∀ st : luau.St,
    ((luau.entries_write l st).2.1).labels = st.labels := by
  induction l with
  | nil => intro st; rfl
  | cons d rest ih =>
    intro st
    rw [luau.entries_write]
    exact thenDo_labels _ _ (wr_labels _ _) fun st1 => ih st1

theorem lu_call_store_labels (result : ℕ × ℕ) (st : luau.St) :
    ((luau.write_call_store result st).2.1).labels = st.labels := by
  rw [luau.write_call_store]
  split
  · rfl
  · exact thenDo_labels _ _ (wr_labels _ _) fun st1 => wr_labels _ _

theorem lu_variable_labels (var : ℕ) (st : luau.St) :
    ((luau.write_variable var st).2.1).labels = st.labels := by
  rw [luau.write_variable]
  split
  · exact wr_labels _ _
  · exact wr_labels _ _

theorem lu_of_pres {st : luau.St} {out : List luau.Ck × luau.St × R}
    (hpres : (out.2.1).labels = st.labels) :
    (out.2.2 = R.ok → (out.2.1).labels = st.labels) ∧
      ∃ e, (out.2.1).labels = st.labels ++ e :=
  ⟨fun _ => hpres, ⟨[], by rw [hpres, List.append_nil]⟩⟩

mutual
theorem lu_main : ∀ (s : luau.Stmt) (st : luau.St),
    ((luau.stmt_write s st).2.2 = R.ok → ((luau.stmt_write s st).2.1).labels = st.labels) ∧
      ∃ e, ((luau.stmt_write s st).2.1).labels = st.labels ++ e
  | luau.Stmt.unreachable, st => lu_of_pres (wr_labels _ _)
  | luau.Stmt.memorize var value, st =>
    lu_of_pres (thenDo_labels _ _ (wr_labels _ _) fun st1 => wr_labels _ _)
  | luau.Stmt.forward body, st => by
    simp only [luau.stmt_write, luau.push_label]
    refine lu_chain_step (b := st.labels ++ [luau.Label.Forward]) _ _
      (fun _ => wr_labels _ _) ⟨[luau.Label.Forward], wr_labels _ _⟩ ?_
    intro st1 h1
    refine lu_chain_step (b := st.labels ++ [luau.Label.Forward]) _ _ ?_ ?_ ?_
    · intro hok
      rw [(lu_main1 body st1).1 hok, h1]
    · obtain ⟨e, he⟩ := (lu_main1 body st1).2
      exact ⟨luau.Label.Forward :: e, by rw [he, h1]; simp⟩
    · intro st2 h2
      refine lu_chain_step (b := st.labels ++ [luau.Label.Forward]) _ _
        (fun _ => by rw [wr_labels, h2]) ⟨[luau.Label.Forward], by rw [wr_labels, h2]⟩ ?_
      intro st3 h3
      refine lu_chain_step (b := st.labels ++ [luau.Label.Forward]) _ _
        (fun _ => by rw [wr_labels, h3]) ⟨[luau.Label.Forward], by rw [wr_labels, h3]⟩ ?_
      intro st4 h4
      have hpop : (luau.pop_label st4).labels = st.labels := by
        simp [luau.pop_label, h4]
      refine ⟨fun _ => by rw [lu_gadget_labels, hpop], ⟨[], ?_⟩⟩
      rw [lu_gadget_labels, hpop, List.append_nil]
  | luau.Stmt.backward body, st => by
    simp only [luau.stmt_write, luau.push_label]
    refine lu_chain_step (b := st.labels ++ [luau.Label.Backward]) _ _
      (fun _ => wr_labels _ _) ⟨[luau.Label.Backward], wr_labels _ _⟩ ?_
    intro st1 h1
    refine lu_chain_step (b := st.labels ++ [luau.Label.Backward]) _ _ ?_ ?_ ?_
    · intro hok
      rw [(lu_main1 body st1).1 hok, h1]
    · obtain ⟨e, he⟩ := (lu_main1 body st1).2
      exact ⟨luau.Label.Backward :: e, by rw [he, h1]; simp⟩
    · intro st2 h2
      refine lu_chain_step (b := st.labels ++ [luau.Label.Backward]) _ _
        (fun _ => by rw [wr_labels, h2]) ⟨[luau.Label.Backward], by rw [wr_labels, h2]⟩ ?_
      intro st3 h3
      refine lu_chain_step (b := st.labels ++ [luau.Label.Backward]) _ _
        (fun _ => by rw [wr_labels, h3]) ⟨[luau.Label.Backward], by rw [wr_labels, h3]⟩ ?_
      intro st4 h4
      have hpop : (luau.pop_label st4).labels = st.labels := by
        simp [luau.pop_label, h4]
      refine ⟨fun _ => by rw [lu_gadget_labels, hpop], ⟨[], ?_⟩⟩
      rw [lu_gadget_labels, hpop, List.append_nil]
  | luau.Stmt.ifS cond truthy falsey, st => by
    cases falsey with
    | none =>
      simp only [luau.stmt_write, luau.push_label]
      refine lu_chain_step (b := st.labels ++ [luau.Label.If]) _ _
        (fun _ => wr_labels _ _) ⟨[luau.Label.If], wr_labels _ _⟩ ?_
      intro st1 h1
      refine lu_chain_step (b := st.labels ++ [luau.Label.If]) _ _
        (fun _ => by rw [wr_labels, h1]) ⟨[luau.Label.If], by rw [wr_labels, h1]⟩ ?_
      intro st2 h2
      refine lu_chain_step (b := st.labels ++ [luau.Label.If]) _ _
        (fun _ => by rw [wr_labels, h2]) ⟨[luau.Label.If], by rw [wr_labels, h2]⟩ ?_
      intro st3 h3
      refine lu_chain_step (b := st.labels ++ [luau.Label.If]) _ _
        (fun _ => by rw [wr_labels, h3]) ⟨[luau.Label.If], by rw [wr_labels, h3]⟩ ?_
      intro st4 h4
      refine lu_chain_step (b := st.labels ++ [luau.Label.If]) _ _ ?_ ?_ ?_
      · intro hok
        rw [(lu_main1 truthy st4).1 hok, h4]
      · obtain ⟨e, he⟩ := (lu_main1 truthy st4).2
        exact ⟨luau.Label.If :: e, by rw [he, h4]; simp⟩
      · intro st5 h5
        refine lu_chain_step (b := st.labels ++ [luau.Label.If]) _ _
          (fun _ => h5) ⟨[luau.Label.If], h5⟩ ?_
        intro st6 h6
        refine lu_chain_step (b := st.labels ++ [luau.Label.If]) _ _
          (fun _ => by rw [wr_labels, h6]) ⟨[luau.Label.If], by rw [wr_labels, h6]⟩ ?_
        intro st7 h7
        refine lu_chain_step (b := st.labels ++ [luau.Label.If]) _ _
          (fun _ => by rw [wr_labels, h7]) ⟨[luau.Label.If], by rw [wr_labels, h7]⟩ ?_
        intro st8 h8
        refine lu_chain_step (b := st.labels ++ [luau.Label.If]) _ _
          (fun _ => by rw [wr_labels, h8]) ⟨[luau.Label.If], by rw [wr_labels, h8]⟩ ?_
        intro st9 h9
        have hpop : (luau.pop_label st9).labels = st.labels := by
          simp [luau.pop_label, h9]
        refine ⟨fun _ => by rw [lu_gadget_labels, hpop], ⟨[], ?_⟩⟩
        rw [lu_gadget_labels, hpop, List.append_nil]
    | some fbody =>
      simp only [luau.stmt_write, luau.push_label]
      refine lu_chain_step (b := st.labels ++ [luau.Label.If]) _ _
        (fun _ => wr_labels _ _) ⟨[luau.Label.If], wr_labels _ _⟩ ?_
      intro st1 h1
      refine lu_chain_step (b := st.labels ++ [luau.Label.If]) _ _
        (fun _ => by rw [wr_labels, h1]) ⟨[luau.Label.If], by rw [wr_labels, h1]⟩ ?_
      intro st2 h2
      refine lu_chain_step (b := st.labels ++ [luau.Label.If]) _ _
        (fun _ => by rw [wr_labels, h2]) ⟨[luau.Label.If], by rw [wr_labels, h2]⟩ ?_
      intro st3 h3
      refine lu_chain_step (b := st.labels ++ [luau.Label.If]) _ _
        (fun _ => by rw [wr_labels, h3]) ⟨[luau.Label.If], by rw [wr_labels, h3]⟩ ?_
      intro st4 h4
      refine lu_chain_step (b := st.labels ++ [luau.Label.If]) _ _ ?_ ?_ ?_
      · intro hok
        rw [(lu_main1 truthy st4).1 hok, h4]
      · obtain ⟨e, he⟩ := (lu_main1 truthy st4).2
        exact ⟨luau.Label.If :: e, by rw [he, h4]; simp⟩
      · intro st5 h5
        have hstage := lu_chain_step (o := st.labels)
            (b := st.labels ++ [luau.Label.If]) (f := st.labels ++ [luau.Label.If])
            (wr (luau.Ck.str "else ") st5) (fun stx => luau.stmts_write fbody stx)
            (fun _ => by rw [wr_labels, h5]) ⟨[luau.Label.If], by rw [wr_labels, h5]⟩
            (fun st6 h6 =>
              ⟨fun hok => by rw [(lu_main1 fbody st6).1 hok, h6], by
                obtain ⟨e, he⟩ := (lu_main1 fbody st6).2
                exact ⟨luau.Label.If :: e, by rw [he, h6]; simp⟩⟩)
        refine lu_chain_step (b := st.labels ++ [luau.Label.If]) _ _
          hstage.1 hstage.2 ?_
        intro st6 h6
        refine lu_chain_step (b := st.labels ++ [luau.Label.If]) _ _
          (fun _ => by rw [wr_labels, h6]) ⟨[luau.Label.If], by rw [wr_labels, h6]⟩ ?_
        intro st7 h7
        refine lu_chain_step (b := st.labels ++ [luau.Label.If]) _ _
          (fun _ => by rw [wr_labels, h7]) ⟨[luau.Label.If], by rw [wr_labels, h7]⟩ ?_
        intro st8 h8
        refine lu_chain_step (b := st.labels ++ [luau.Label.If]) _ _
          (fun _ => by rw [wr_labels, h8]) ⟨[luau.Label.If], by rw [wr_labels, h8]⟩ ?_
        intro st9 h9
        have hpop : (luau.pop_label st9).labels = st.labels := by
          simp [luau.pop_label, h9]
        refine ⟨fun _ => by rw [lu_gadget_labels, hpop], ⟨[], ?_⟩⟩
        rw [lu_gadget_labels, hpop, List.append_nil]
  | luau.Stmt.br target, st => lu_of_pres (lu_br_at_labels _ _)
  | luau.Stmt.brIf cond target, st =>
    lu_of_pres (by
      rw [luau.stmt_write]
      refine thenDo_labels _ _ (wr_labels _ _) fun st1 => ?_
      refine thenDo_labels _ _ (wr_labels _ _) fun st2 => ?_
      refine thenDo_labels _ _ (wr_labels _ _) fun st3 => ?_
      exact thenDo_labels _ _ (lu_br_at_labels _ _) fun st4 => wr_labels _ _)
  | luau.Stmt.brTable cond table default, st =>
    lu_of_pres (by
      rw [luau.stmt_write]
      refine thenDo_labels _ _ (wr_labels _ _) fun st1 => ?_
      refine thenDo_labels _ _ (wr_labels _ _) fun st2 => ?_
      refine thenDo_labels _ _ ?_ fun st3 => ?_
      · split
        · exact okE_labels _
        · exact thenDo_labels _ _ (wr_labels _ _) fun stx => lu_entries_labels _ _
      · refine thenDo_labels _ _ (wr_labels _ _) fun st4 => ?_
        refine thenDo_labels _ _ (wr_labels _ _) fun st5 => ?_
        refine thenDo_labels _ _ (wr_labels _ _) fun st6 => ?_
        refine thenDo_labels _ _ (wr_labels _ _) fun st7 => ?_
        exact thenDo_labels _ _ (wr_labels _ _) fun st8 => wr_labels _ _)
  | luau.Stmt.ret list, st =>
    lu_of_pres (by
      rw [luau.stmt_write]
      refine thenDo_labels _ _ (wr_labels _ _) fun st1 => ?_
      exact thenDo_labels _ _ (wr_labels _ _) fun st2 => wr_labels _ _)
  | luau.Stmt.call func result param_list, st =>
    lu_of_pres (by
      rw [luau.stmt_write]
      refine thenDo_labels _ _ (lu_call_store_labels _ _) fun st1 => ?_
      refine thenDo_labels _ _ (wr_labels _ _) fun st2 => ?_
      exact thenDo_labels _ _ (wr_labels _ _) fun st3 => wr_labels _ _)
  | luau.Stmt.callIndirect tbl index result param_list, st =>
    lu_of_pres (by
      rw [luau.stmt_write]
      refine thenDo_labels _ _ (lu_call_store_labels _ _) fun st1 => ?_
      refine thenDo_labels _ _ (wr_labels _ _) fun st2 => ?_
      refine thenDo_labels _ _ (wr_labels _ _) fun st3 => ?_
      refine thenDo_labels _ _ (wr_labels _ _) fun st4 => ?_
      exact thenDo_labels _ _ (wr_labels _ _) fun st5 => wr_labels _ _)
  | luau.Stmt.setLocal var value, st =>
    lu_of_pres (by
      rw [luau.stmt_write]
      refine thenDo_labels _ _ (lu_variable_labels _ _) fun st1 => ?_
      exact thenDo_labels _ _ (wr_labels _ _) fun st2 => wr_labels _ _)
  | luau.Stmt.setGlobal var value, st =>
    lu_of_pres (thenDo_labels _ _ (wr_labels _ _) fun st1 => wr_labels _ _)
  | luau.Stmt.storeAt what pointer offset value, st =>
    lu_of_pres (by
      rw [luau.stmt_write]
      refine thenDo_labels _ _ (wr_labels _ _) fun st1 => ?_
      refine thenDo_labels _ _ (wr_labels _ _) fun st2 => ?_
      refine thenDo_labels _ _ (wr_labels _ _) fun st3 => ?_
      exact thenDo_labels _ _ (wr_labels _ _) fun st4 => wr_labels _ _)

theorem lu_main1 : ∀ (l : List luau.Stmt) (st : luau.St),
    ((luau.stmts_write l st).2.2 = R.ok → ((luau.stmts_write l st).2.1).labels = st.labels) ∧
      ∃ e, ((luau.stmts_write l st).2.1).labels = st.labels ++ e
  | [], st => by
    rw [luau.stmts_write]
    exact ⟨fun _ => rfl, ⟨[], by simp [okE]⟩⟩
  | s :: rest, st => by
    rw [luau.stmts_write]
    refine lu_chain_step (b := st.labels) _ _ ?_ ?_ ?_
    · exact (lu_main s st).1
    · exact (lu_main s st).2
    · intro st1 h1
      refine ⟨fun hok => by rw [(lu_main1 rest st1).1 hok, h1], ?_⟩
      obtain ⟨e, he⟩ := (lu_main1 rest st1).2
      exact ⟨e, by rw [he, h1]⟩
end

/-! ### Chunk-shape lemmas for the structured backend's wrappers -/

theorem okE_ok {α χ : Type} {st st' : MSt α} {cs : List χ} (h : okE st = (cs, st', R.ok)) :
    cs = [] ∧ st' = st :=
  ⟨(congrArg (fun t => t.1) h).symm, (congrArg (fun t => t.2.1) h).symm⟩

theorem lu_br_target_ok {level : ℕ} {il : Bool} {st : luau.St} {cs : List luau.Ck}
    {st' : luau.St} (h : luau.br_target level il st = (cs, st', R.ok)) :
    cs = [luau.Ck.str "if desired then ", luau.Ck.ifDesiredEq level,
        luau.Ck.str "desired = nil "] ++
      (if il then [luau.Ck.str "continue "] else []) ++
      [luau.Ck.str "end ", luau.Ck.str "break ", luau.Ck.str "end "] := by
  rw [luau.br_target] at h
  obtain ⟨c1, s1, c2, h1, h2, e1⟩ := thenDo_ok h
  obtain ⟨hc1, _, _⟩ := wr_ok h1
  obtain ⟨c3, s2, c4, h3, h4, e2⟩ := thenDo_ok h2
  obtain ⟨hc3, _, _⟩ := wr_ok h3
  obtain ⟨c5, s3, c6, h5, h6, e3⟩ := thenDo_ok h4
  obtain ⟨hc5, _, _⟩ := wr_ok h5
  obtain ⟨c7, s4, c8, h7, h8, e4⟩ := thenDo_ok h6
  have hc7 : c7 = if il then [luau.Ck.str "continue "] else [] := by
    cases il
    · have hE : okE (χ := luau.Ck) s3 = (c7, s4, R.ok) := by simpa using h7
      simpa using (okE_ok hE).1
    · have hW : wr (luau.Ck.str "continue ") s3 = (c7, s4, R.ok) := by simpa using h7
      simpa using (wr_ok hW).1
  obtain ⟨c9, s5, c10, h9, h10, e5⟩ := thenDo_ok h8
  obtain ⟨hc9, _, _⟩ := wr_ok h9
  obtain ⟨c11, s6, c12, h11, h12, e6⟩ := thenDo_ok h10
  obtain ⟨hc11, _, _⟩ := wr_ok h11
  obtain ⟨hc12, _, _⟩ := wr_ok h12
  subst e1 e2 e3 e4 e5 e6
  rw [hc1, hc3, hc5, hc7, hc9, hc11, hc12]
  cases il <;> simp

theorem lu_gadget_ok {ll : List luau.Label} {st : luau.St} {cs : List luau.Ck} {st' : luau.St}
    (h : luau.write_br_gadget ll (ll.length - 1) st = (cs, st', R.ok)) :
    cs = luau.gadget_chunks ll := by
  rcases hgl : ll.getLast? with _ | k
  · simp only [luau.write_br_gadget, hgl] at h
    simp only [luau.gadget_chunks, hgl]
    exact (okE_ok h).1
  · cases k
    · simp only [luau.write_br_gadget, hgl] at h
      have := lu_br_target_ok h
      simp [luau.gadget_chunks, hgl, this]
    · simp only [luau.write_br_gadget, hgl] at h
      have := lu_br_target_ok h
      simp [luau.gadget_chunks, hgl, this]
    · simp only [luau.write_br_gadget, hgl] at h
      have := lu_br_target_ok h
      simp [luau.gadget_chunks, hgl, this]

theorem lu_forward_shape (body : List luau.Stmt) (st : luau.St) (cs : List luau.Ck)
    (st' : luau.St) (h : luau.stmt_write (luau.Stmt.forward body) st = (cs, st', R.ok)) :
    ∃ mid, cs = luau.Ck.str "while true do " ::
        (mid ++ [luau.Ck.str "break ", luau.Ck.str "end "] ++ luau.gadget_chunks st.labels) ∧
      st'.labels = st.labels := by
  simp only [luau.stmt_write, luau.push_label] at h
  obtain ⟨c1, s1, c2, h1, h2, e1⟩ := thenDo_ok h
  obtain ⟨hc1, hs1, _⟩ := wr_ok h1
  obtain ⟨c3, s2, c4, h3, h4, e2⟩ := thenDo_ok h2
  obtain ⟨c5, s3, c6, h5, h6, e3⟩ := thenDo_ok h4
  obtain ⟨hc5, hs3, _⟩ := wr_ok h5
  obtain ⟨c7, s4, c8, h7, h8, e4⟩ := thenDo_ok h6
  obtain ⟨hc7, hs4, _⟩ := wr_ok h7
  have hl1 : s1.labels = st.labels ++ [luau.Label.Forward] := by rw [hs1]
  have hl2 : s2.labels = st.labels ++ [luau.Label.Forward] := by
    have hok : (luau.stmts_write body s1).2.2 = R.ok := by rw [h3]
    have hx := (lu_main1 body s1).1 hok
    rw [h3] at hx
    simpa [hl1] using hx
  have hl3 : s3.labels = st.labels ++ [luau.Label.Forward] := by
    rw [hs3]
    exact hl2
  have hl4 : s4.labels = st.labels ++ [luau.Label.Forward] := by
    rw [hs4]
    exact hl3
  have hpop : (luau.pop_label s4).labels = st.labels := by
    simp [luau.pop_label, hl4]
  rw [hpop] at h8
  have hc8 : c8 = luau.gadget_chunks st.labels := lu_gadget_ok h8
  have hst' : st'.labels = st.labels := by
    have hx := lu_gadget_labels st.labels (st.labels.length - 1) (luau.pop_label s4)
    rw [h8] at hx
    simpa [hpop] using hx
  refine ⟨c3, ?_, hst'⟩
  subst e1 e2 e3 e4
  rw [hc1, hc5, hc7, hc8]
  simp

theorem lu_backward_shape (body : List luau.Stmt) (st : luau.St) (cs : List luau.Ck)
    (st' : luau.St) (h : luau.stmt_write (luau.Stmt.backward body) st = (cs, st', R.ok)) :
    ∃ mid, cs = luau.Ck.str "while true do " ::
        (mid ++ [luau.Ck.str "break ", luau.Ck.str "end "] ++ luau.gadget_chunks st.labels) ∧
      st'.labels = st.labels := by
  simp only [luau.stmt_write, luau.push_label] at h
  obtain ⟨c1, s1, c2, h1, h2, e1⟩ := thenDo_ok h
  obtain ⟨hc1, hs1, _⟩ := wr_ok h1
  obtain ⟨c3, s2, c4, h3, h4, e2⟩ := thenDo_ok h2
  obtain ⟨c5, s3, c6, h5, h6, e3⟩ := thenDo_ok h4
  obtain ⟨hc5, hs3, _⟩ := wr_ok h5
  obtain ⟨c7, s4, c8, h7, h8, e4⟩ := thenDo_ok h6
  obtain ⟨hc7, hs4, _⟩ := wr_ok h7
  have hl1 : s1.labels = st.labels ++ [luau.Label.Backward] := by rw [hs1]
  have hl2 : s2.labels = st.labels ++ [luau.Label.Backward] := by
    have hok : (luau.stmts_write body s1).2.2 = R.ok := by rw [h3]
    have hx := (lu_main1 body s1).1 hok
    rw [h3] at hx
    simpa [hl1] using hx
  have hl3 : s3.labels = st.labels ++ [luau.Label.Backward] := by
    rw [hs3]
    exact hl2
  have hl4 : s4.labels = st.labels ++ [luau.Label.Backward] := by
    rw [hs4]
    exact hl3
  have hpop : (luau.pop_label s4).labels = st.labels := by
    simp [luau.pop_label, hl4]
  rw [hpop] at h8
  have hc8 : c8 = luau.gadget_chunks st.labels := lu_gadget_ok h8
  have hst' : st'.labels = st.labels := by
    have hx := lu_gadget_labels st.labels (st.labels.length - 1) (luau.pop_label s4)
    rw [h8] at hx
    simpa [hpop] using hx
  refine ⟨c3, ?_, hst'⟩
  subst e1 e2 e3 e4
  rw [hc1, hc5, hc7, hc8]
  simp

theorem lu_ifS_shape (cond : String) (truthy : List luau.Stmt) (falsey : Option (List luau.Stmt))
    (st : luau.St) (cs : List luau.Ck) (st' : luau.St)
    (h : luau.stmt_write (luau.Stmt.ifS cond truthy falsey) st = (cs, st', R.ok)) :
    ∃ mid, cs = [luau.Ck.str "while true do ", luau.Ck.str "if ", luau.Ck.expr cond,
        luau.Ck.str "~= 0 then "] ++ mid ++
        [luau.Ck.str "end ", luau.Ck.str "break ", luau.Ck.str "end "] ++
        luau.gadget_chunks st.labels ∧
      st'.labels = st.labels := by
  cases falsey with
  | none =>
    simp only [luau.stmt_write, luau.push_label] at h
    obtain ⟨c1, s1, c2, h1, h2, e1⟩ := thenDo_ok h
    obtain ⟨hc1, hs1, _⟩ := wr_ok h1
    obtain ⟨c3, s2, c4, h3, h4, e2⟩ := thenDo_ok h2
    obtain ⟨hc3, hs2, _⟩ := wr_ok h3
    obtain ⟨c5, s3, c6, h5, h6, e3⟩ := thenDo_ok h4
    obtain ⟨hc5, hs3, _⟩ := wr_ok h5
    obtain ⟨c7, s4, c8, h7, h8, e4⟩ := thenDo_ok h6
    obtain ⟨hc7, hs4, _⟩ := wr_ok h7
    obtain ⟨c9, s5, c10, h9, h10, e5⟩ := thenDo_ok h8
    obtain ⟨c11, s6, c12, h11, h12, e6⟩ := thenDo_ok h10
    obtain ⟨c13, s7, c14, h13, h14, e7⟩ := thenDo_ok h12
    obtain ⟨hc13, hs7, _⟩ := wr_ok h13
    obtain ⟨c15, s8, c16, h15, h16, e8⟩ := thenDo_ok h14
    obtain ⟨hc15, hs8, _⟩ := wr_ok h15
    obtain ⟨c17, s9, c18, h17, h18, e9⟩ := thenDo_ok h16
    obtain ⟨hc17, hs9, _⟩ := wr_ok h17
    have hl1 : s1.labels = st.labels ++ [luau.Label.If] := by rw [hs1]
    have hl2 : s2.labels = st.labels ++ [luau.Label.If] := by
      rw [hs2]
      exact hl1
    have hl3 : s3.labels = st.labels ++ [luau.Label.If] := by
      rw [hs3]
      exact hl2
    have hl4 : s4.labels = st.labels ++ [luau.Label.If] := by
      rw [hs4]
      exact hl3
    have hl5 : s5.labels = st.labels ++ [luau.Label.If] := by
      have hok : (luau.stmts_write truthy s4).2.2 = R.ok := by rw [h9]
      have hx := (lu_main1 truthy s4).1 hok
      rw [h9] at hx
      simpa [hl4] using hx
    have hl6 : s6.labels = st.labels ++ [luau.Label.If] := by
      rw [(okE_ok h11).2]
      exact hl5
    have hl7 : s7.labels = st.labels ++ [luau.Label.If] := by
      rw [hs7]
      exact hl6
    have hl8 : s8.labels = st.labels ++ [luau.Label.If] := by
      rw [hs8]
      exact hl7
    have hl9 : s9.labels = st.labels ++ [luau.Label.If] := by
      rw [hs9]
      exact hl8
    have hpop : (luau.pop_label s9).labels = st.labels := by
      simp [luau.pop_label, hl9]
    rw [hpop] at h18
    have hc18 : c18 = luau.gadget_chunks st.labels := lu_gadget_ok h18
    have hst' : st'.labels = st.labels := by
      have hx := lu_gadget_labels st.labels (st.labels.length - 1) (luau.pop_label s9)
      rw [h18] at hx
      simpa [hpop] using hx
    refine ⟨c9 ++ c11, ?_, hst'⟩
    subst e1 e2 e3 e4 e5 e6 e7 e8 e9
    rw [hc1, hc3, hc5, hc7, hc13, hc15, hc17, hc18]
    simp
  | some fb =>
    simp only [luau.stmt_write, luau.push_label] at h
    obtain ⟨c1, s1, c2, h1, h2, e1⟩ := thenDo_ok h
    obtain ⟨hc1, hs1, _⟩ := wr_ok h1
    obtain ⟨c3, s2, c4, h3, h4, e2⟩ := thenDo_ok h2
    obtain ⟨hc3, hs2, _⟩ := wr_ok h3
    obtain ⟨c5, s3, c6, h5, h6, e3⟩ := thenDo_ok h4
    obtain ⟨hc5, hs3, _⟩ := wr_ok h5
    obtain ⟨c7, s4, c8, h7, h8, e4⟩ := thenDo_ok h6
    obtain ⟨hc7, hs4, _⟩ := wr_ok h7
    obtain ⟨c9, s5, c10, h9, h10, e5⟩ := thenDo_ok h8
    obtain ⟨c11, s6, c12, h11, h12, e6⟩ := thenDo_ok h10
    obtain ⟨c13, s7, c14, h13, h14, e7⟩ := thenDo_ok h12
    obtain ⟨hc13, hs7, _⟩ := wr_ok h13
    obtain ⟨c15, s8, c16, h15, h16, e8⟩ := thenDo_ok h14
    obtain ⟨hc15, hs8, _⟩ := wr_ok h15
    obtain ⟨c17, s9, c18, h17, h18, e9⟩ := thenDo_ok h16
    obtain ⟨hc17, hs9, _⟩ := wr_ok h17
    have hl1 : s1.labels = st.labels ++ [luau.Label.If] := by rw [hs1]
    have hl2 : s2.labels = st.labels ++ [luau.Label.If] := by
      rw [hs2]
      exact hl1
    have hl3 : s3.labels = st.labels ++ [luau.Label.If] := by
      rw [hs3]
      exact hl2
    have hl4 : s4.labels = st.labels ++ [luau.Label.If] := by
      rw [hs4]
      exact hl3
    have hl5 : s5.labels = st.labels ++ [luau.Label.If] := by
      have hok : (luau.stmts_write truthy s4).2.2 = R.ok := by rw [h9]
      have hx := (lu_main1 truthy s4).1 hok
      rw [h9] at hx
      simpa [hl4] using hx
    have hl6 : s6.labels = st.labels ++ [luau.Label.If] := by
      obtain ⟨ca, sa, cb, ha, hb, ec⟩ := thenDo_ok h11
      obtain ⟨_, hsa, _⟩ := wr_ok ha
      have hok : (luau.stmts_write fb sa).2.2 = R.ok := by rw [hb]
      have hx := (lu_main1 fb sa).1 hok
      rw [hb] at hx
      simp only at hx
      rw [hx, hsa]
      exact hl5
    have hl7 : s7.labels = st.labels ++ [luau.Label.If] := by
      rw [hs7]
      exact hl6
    have hl8 : s8.labels = st.labels ++ [luau.Label.If] := by
      rw [hs8]
      exact hl7
    have hl9 : s9.labels = st.labels ++ [luau.Label.If] := by
      rw [hs9]
      exact hl8
    have hpop : (luau.pop_label s9).labels = st.labels := by
      simp [luau.pop_label, hl9]
    rw [hpop] at h18
    have hc18 : c18 = luau.gadget_chunks st.labels := lu_gadget_ok h18
    have hst' : st'.labels = st.labels := by
      have hx := lu_gadget_labels st.labels (st.labels.length - 1) (luau.pop_label s9)
      rw [h18] at hx
      simpa [hpop] using hx
    refine ⟨c9 ++ c11, ?_, hst'⟩
    subst e1 e2 e3 e4 e5 e6 e7 e8 e9
    rw [hc1, hc3, hc5, hc7, hc13, hc15, hc17, hc18]
    simp

/-- C1 counterexample: the claim's post-check does not fire after *every*
wrapper — a top-level `Forward` emits no post-check at all (no sentinel
comparison in its output) — and the post-check's `continue` is keyed on the
*enclosing* wrapper's kind, not on the wrapper whose body exited: a
`Backward` (loop-like) nested in a `Forward` gets a post-check with no
`continue`, while a `Forward` (not loop-like) nested in a `Backward` gets
one with `continue`. -/
theorem c1_counterexample :
    (luau.stmt_write (luau.Stmt.forward []) ⟨[], 0, 0, 20⟩).1 =
      [luau.Ck.str "while true do ", luau.Ck.str "break ", luau.Ck.str "end "] ∧
    luau.gadgetLevels (luau.stmt_write (luau.Stmt.forward []) ⟨[], 0, 0, 20⟩).1 = [] ∧
    luau.Ck.str "continue " ∉
      (luau.stmt_write (luau.Stmt.backward []) ⟨[luau.Label.Forward], 0, 0, 20⟩).1 ∧
    luau.Ck.str "continue " ∈
      (luau.stmt_write (luau.Stmt.forward []) ⟨[luau.Label.Backward], 0, 0, 20⟩).1 := by
  decide

/-- C1 amended: a non-local branch `Br(up)` with `up > 0` writes the sentinel
to the resolved target frame's depth (`len - 1 - up`) and issues a native
break of the immediately enclosing wrapper.  A post-check is emitted after a
wrapper only when an enclosing wrapper exists (the outermost wrapper emits
none); it compares the sentinel against the depth of the *enclosing*
wrapper (`gadget_chunks`): when the sentinel is absent it does nothing; when
it matches it clears the sentinel and issues a native continue if the
enclosing wrapper is loop-like, otherwise a native break of the enclosing
wrapper (control falls past it); when it is present but does not match it
re-raises by a native break of the enclosing wrapper, keeping the
sentinel. -/
theorem c1_theorem :
    (∀ (up : ℕ) (st : luau.St), 0 < up → up < st.labels.length → 4 ≤ st.sink →
      luau.write_br_at up st =
        ([luau.Ck.str "do ", luau.Ck.setDesired (st.labels.length - 1 - up),
          luau.Ck.str "break ", luau.Ck.str "end "], { st with sink := st.sink - 4 }, R.ok)) ∧
    (∀ (body : List luau.Stmt) (st : luau.St) (cs : List luau.Ck) (st' : luau.St),
      luau.stmt_write (luau.Stmt.forward body) st = (cs, st', R.ok) →
      ∃ mid, cs = luau.Ck.str "while true do " ::
          (mid ++ [luau.Ck.str "break ", luau.Ck.str "end "] ++
            luau.gadget_chunks st.labels) ∧
        st'.labels = st.labels) ∧
    (∀ (body : List luau.Stmt) (st : luau.St) (cs : List luau.Ck) (st' : luau.St),
      luau.stmt_write (luau.Stmt.backward body) st = (cs, st', R.ok) →
      ∃ mid, cs = luau.Ck.str "while true do " ::
          (mid ++ [luau.Ck.str "break ", luau.Ck.str "end "] ++
            luau.gadget_chunks st.labels) ∧
        st'.labels = st.labels) ∧
    (∀ (cond : String) (truthy : List luau.Stmt) (falsey : Option (List luau.Stmt))
      (st : luau.St) (cs : List luau.Ck) (st' : luau.St),
      luau.stmt_write (luau.Stmt.ifS cond truthy falsey) st = (cs, st', R.ok) →
      ∃ mid, cs = [luau.Ck.str "while true do ", luau.Ck.str "if ", luau.Ck.expr cond,
          luau.Ck.str "~= 0 then "] ++ mid ++
          [luau.Ck.str "end ", luau.Ck.str "break ", luau.Ck.str "end "] ++
          luau.gadget_chunks st.labels ∧
        st'.labels = st.labels) ∧
    (∀ (level : ℕ) (il : Bool),
      (luau.br_target level il ⟨[], 0, 0, 9⟩).1.map luau.render = flatS (gadgetL level il)) ∧
    (∀ (level : ℕ) (il : Bool),
      execS envTrue 10 (gadgetL level il) none = some (none, LFlow.norm)) ∧
    (∀ (level : ℕ) (il : Bool),
      execS envTrue 10 (gadgetL level il) (some level) =
        some (none, if il then LFlow.cont else LFlow.brk)) ∧
    (∀ (level : ℕ) (il : Bool) (d : ℕ), d ≠ level →
      execS envTrue 10 (gadgetL level il) (some d) = some (some d, LFlow.brk)) := by
  refine ⟨?_, lu_forward_shape, lu_backward_shape, lu_ifS_shape, ?_, ?_, ?_, ?_⟩
  · intro up st h0 hlen hs
    have e1 : ¬st.sink = 0 := by omega
    have e2 : ¬st.sink - 2 = 0 := by omega
    have e3 : ¬st.sink - 3 = 0 := by omega
    have e4 : ¬st.sink - 1 = 0 := by omega
    have h0' : ¬up = 0 := by omega
    simp [luau.write_br_at, wr, thenDo, e1, e2, e3, e4, h0', hlen, Nat.sub_sub]
  · intro level il
    cases il <;> rfl
  · intro level il
    cases il <;> rfl
  · intro level il
    cases il <;> simp [gadgetL, execS, execL]
  · intro level il d hne
    cases il <;> simp [gadgetL, execS, execL, hne]

/-- C1 witness at concrete inputs: the branch chunk sequence for `Br(1)`
under two frames, the full emission shape of a `Forward` nested in a
`Backward`, and the matching post-check clearing the sentinel and
continuing. -/
theorem c1_witness :
    luau.write_br_at 1 ⟨[luau.Label.Backward, luau.Label.If], 0, 0, 9⟩ =
      ([luau.Ck.str "do ", luau.Ck.setDesired 0, luau.Ck.str "break ", luau.Ck.str "end "],
        ⟨[luau.Label.Backward, luau.Label.If], 0, 0, 5⟩, R.ok) ∧
    (∃ mid, (luau.stmt_write (luau.Stmt.forward []) ⟨[luau.Label.Backward], 0, 0, 20⟩).1 =
        luau.Ck.str "while true do " ::
          (mid ++ [luau.Ck.str "break ", luau.Ck.str "end "] ++
            luau.gadget_chunks [luau.Label.Backward]) ∧
      ((luau.stmt_write (luau.Stmt.forward []) ⟨[luau.Label.Backward], 0, 0, 20⟩).2.1).labels =
        [luau.Label.Backward]) ∧
    execS envTrue 10 (gadgetL 0 true) (some 0) = some (none, LFlow.cont) :=
  ⟨c1_theorem.1 1 ⟨[luau.Label.Backward, luau.Label.If], 0, 0, 9⟩ (by decide) (by decide)
      (by decide),
   c1_theorem.2.1 [] ⟨[luau.Label.Backward], 0, 0, 20⟩ _ _ rfl,
   c1_theorem.2.2.2.2.2.2.1 0 true⟩

/-! ### Goto-backend label-stack lemmas -/

theorem lj_of_pres {α : Type} {st : MSt α} {out : List luajit.Ck × MSt α × R}
    (hpres : (out.2.1).labels = st.labels) :
    (out.2.2 = R.ok → (out.2.1).labels = st.labels) ∧
      ∃ e, (out.2.1).labels = st.labels ++ e :=
  ⟨fun _ => hpres, ⟨[], by rw [hpres, List.append_nil]⟩⟩

theorem lj_br_at_labels (up : ℕ) (st : luajit.St) :
    ((luajit.write_br_at up st).2.1).labels = st.labels := by
  rw [luajit.write_br_at]
  rcases luajit.nth_back st.labels up with _ | lv
  · rfl
  · exact wr_labels _ _

theorem lj_runs_labels (runs : List (ℕ × ℕ × ℕ)) : ∀ st : luajit.St,
    ((luajit.runs_write runs st).2.1).labels = st.labels := by
  induction runs with
  | nil => intro st; rfl
  | cons r rest ih =>
    intro st
    obtain ⟨start, stop, dest⟩ := r
    rw [luajit.runs_write]
    refine thenDo_labels _ _ (wr_labels _ _) fun st1 => ?_
    refine thenDo_labels _ _ (lj_br_at_labels _ _) fun st2 => ?_
    exact thenDo_labels _ _ (wr_labels _ _) fun st3 => ih st3

theorem lj_term_labels (t : luajit.Term) (st : luajit.St) :
    ((luajit.term_write t st).2.1).labels = st.labels := by
  cases t with
  | unreachable => exact wr_labels _ _
  | br target => exact lj_br_at_labels _ _
  | brTable cond table default =>
    rw [luajit.term_write]
    split
    · exact lj_br_at_labels _ _
    · refine thenDo_labels _ _ (wr_labels _ _) fun st1 => ?_
      refine thenDo_labels _ _ (wr_labels _ _) fun st2 => ?_
      refine thenDo_labels _ _ (lj_runs_labels _ _) fun st3 => ?_
      refine thenDo_labels _ _ (wr_labels _ _) fun st4 => ?_
      exact thenDo_labels _ _ (lj_br_at_labels _ _) fun st5 => wr_labels _ _

theorem lj_call_store_labels (result : ℕ × ℕ) (st : luajit.St) :
    ((luajit.write_call_store result st).2.1).labels = st.labels := by
  rw [luajit.write_call_store]
  split
  · rfl
  · exact thenDo_labels _ _ (wr_labels _ _) fun st1 => wr_labels _ _

theorem lj_variable_labels (var : ℕ) (st : luajit.St) :
    ((luajit.write_variable var st).2.1).labels = st.labels := by
  rw [luajit.write_variable]
  split
  · exact wr_labels _ _
  · exact wr_labels _ _

mutual
theorem lj_ext : ∀ (s : luajit.StmtJ) (st : luajit.St),
    ((luajit.stmtJ_write s st).2.2 = R.ok → ((luajit.stmtJ_write s st).2.1).labels = st.labels) ∧
      ∃ e, ((luajit.stmtJ_write s st).2.1).labels = st.labels ++ e
  | luajit.StmtJ.forward f, st => by
    rw [show luajit.stmtJ_write (luajit.StmtJ.forward f) st = luajit.fwd_write f st from by
      cases f with | mk code last => cases last <;> rfl]
    exact lj_ext_fwd f st
  | luajit.StmtJ.backward f, st => by
    rw [show luajit.stmtJ_write (luajit.StmtJ.backward f) st = luajit.bwd_write f st from by
      cases f with | mk code last => cases last <;> rfl]
    exact lj_ext_bwd f st
  | luajit.StmtJ.ifS cond truthy falsey, st => by
    cases falsey with
    | none =>
      simp only [luajit.stmtJ_write]
      refine lu_chain_step (b := st.labels) _ _ (fun _ => wr_labels _ _)
        ⟨[], by rw [wr_labels, List.append_nil]⟩ ?_
      intro st1 h1
      refine lu_chain_step (b := st.labels) _ _
        (fun _ => by rw [luajit.write_condition, wr_labels, h1])
        ⟨[], by rw [luajit.write_condition, wr_labels, h1, List.append_nil]⟩ ?_
      intro st2 h2
      refine lu_chain_step (b := st.labels) _ _ (fun _ => by rw [wr_labels, h2])
        ⟨[], by rw [wr_labels, h2, List.append_nil]⟩ ?_
      intro st3 h3
      refine lu_chain_step (b := st.labels) _ _ ?_ ?_ ?_
      · intro hok
        rw [(lj_ext_fwd truthy st3).1 hok, h3]
      · obtain ⟨e, he⟩ := (lj_ext_fwd truthy st3).2
        exact ⟨e, by rw [he, h3]⟩
      · intro st4 h4
        refine lu_chain_step (b := st.labels) _ _ (fun _ => h4)
          ⟨[], by simp [okE, h4]⟩ ?_
        intro st5 h5
        exact ⟨fun _ => by rw [wr_labels, h5], ⟨[], by rw [wr_labels, h5, List.append_nil]⟩⟩
    | some fb =>
      simp only [luajit.stmtJ_write]
      refine lu_chain_step (b := st.labels) _ _ (fun _ => wr_labels _ _)
        ⟨[], by rw [wr_labels, List.append_nil]⟩ ?_
      intro st1 h1
      refine lu_chain_step (b := st.labels) _ _
        (fun _ => by rw [luajit.write_condition, wr_labels, h1])
        ⟨[], by rw [luajit.write_condition, wr_labels, h1, List.append_nil]⟩ ?_
      intro st2 h2
      refine lu_chain_step (b := st.labels) _ _ (fun _ => by rw [wr_labels, h2])
        ⟨[], by rw [wr_labels, h2, List.append_nil]⟩ ?_
      intro st3 h3
      refine lu_chain_step (b := st.labels) _ _ ?_ ?_ ?_
      · intro hok
        rw [(lj_ext_fwd truthy st3).1 hok, h3]
      · obtain ⟨e, he⟩ := (lj_ext_fwd truthy st3).2
        exact ⟨e, by rw [he, h3]⟩
      · intro st4 h4
        have hstage := lu_chain_step (o := st.labels) (b := st.labels) (f := st.labels)
            (wr (luajit.Ck.str "else ") st4) (fun stx => luajit.fwd_write fb stx)
            (fun _ => by rw [wr_labels, h4]) ⟨[], by rw [wr_labels, h4, List.append_nil]⟩
            (fun st5 h5 =>
              ⟨fun hok => by rw [(lj_ext_fwd fb st5).1 hok, h5], by
                obtain ⟨e, he⟩ := (lj_ext_fwd fb st5).2
                exact ⟨e, by rw [he, h5]⟩⟩)
        refine lu_chain_step (b := st.labels) _ _ hstage.1 hstage.2 ?_
        intro st5 h5
        exact ⟨fun _ => by rw [wr_labels, h5], ⟨[], by rw [wr_labels, h5, List.append_nil]⟩⟩
  | luajit.StmtJ.call func result param_list, st =>
    lj_of_pres (by
      rw [luajit.stmtJ_write]
      refine thenDo_labels _ _ (lj_call_store_labels _ _) fun st1 => ?_
      refine thenDo_labels _ _ (wr_labels _ _) fun st2 => ?_
      exact thenDo_labels _ _ (wr_labels _ _) fun st3 => wr_labels _ _)
  | luajit.StmtJ.callIndirect tbl index result param_list, st =>
    lj_of_pres (by
      rw [luajit.stmtJ_write]
      refine thenDo_labels _ _ (lj_call_store_labels _ _) fun st1 => ?_
      refine thenDo_labels _ _ (wr_labels _ _) fun st2 => ?_
      refine thenDo_labels _ _ (wr_labels _ _) fun st3 => ?_
      refine thenDo_labels _ _ (wr_labels _ _) fun st4 => ?_
      exact thenDo_labels _ _ (wr_labels _ _) fun st5 => wr_labels _ _)
  | luajit.StmtJ.setTemporary var value, st =>
    lj_of_pres (thenDo_labels _ _ (wr_labels _ _) fun st1 => wr_labels _ _)
  | luajit.StmtJ.setLocal var value, st =>
    lj_of_pres (by
      rw [luajit.stmtJ_write]
      refine thenDo_labels _ _ (lj_variable_labels _ _) fun st1 => ?_
      exact thenDo_labels _ _ (wr_labels _ _) fun st2 => wr_labels _ _)
  | luajit.StmtJ.setGlobal var value, st =>
    lj_of_pres (thenDo_labels _ _ (wr_labels _ _) fun st1 => wr_labels _ _)
  | luajit.StmtJ.storeAt what pointer offset value, st =>
    lj_of_pres (by
      rw [luajit.stmtJ_write]
      refine thenDo_labels _ _ (wr_labels _ _) fun st1 => ?_
      refine thenDo_labels _ _ (wr_labels _ _) fun st2 => ?_
      refine thenDo_labels _ _ ?_ fun st3 => ?_
      · split
        · exact wr_labels _ _
        · exact okE_labels _
      · refine thenDo_labels _ _ (wr_labels _ _) fun st4 => ?_
        exact thenDo_labels _ _ (wr_labels _ _) fun st5 => wr_labels _ _)

theorem lj_ext1 : ∀ (l : List luajit.StmtJ) (st : luajit.St),
    ((luajit.stmtsJ_write l st).2.2 = R.ok →
      ((luajit.stmtsJ_write l st).2.1).labels = st.labels) ∧
      ∃ e, ((luajit.stmtsJ_write l st).2.1).labels = st.labels ++ e
  | [], st => by
    rw [luajit.stmtsJ_write]
    exact ⟨fun _ => rfl, ⟨[], by simp [okE]⟩⟩
  | s :: rest, st => by
    rw [luajit.stmtsJ_write]
    refine lu_chain_step (b := st.labels) _ _ (lj_ext s st).1 (lj_ext s st).2 ?_
    intro st1 h1
    refine ⟨fun hok => by rw [(lj_ext1 rest st1).1 hok, h1], ?_⟩
    obtain ⟨e, he⟩ := (lj_ext1 rest st1).2
    exact ⟨e, by rw [he, h1]⟩

theorem lj_ext_fwd : ∀ (f : luajit.Fwd) (st : luajit.St),
    ((luajit.fwd_write f st).2.2 = R.ok → ((luajit.fwd_write f st).2.1).labels = st.labels) ∧
      ∃ e, ((luajit.fwd_write f st).2.1).labels = st.labels ++ e
  | luajit.Fwd.mk code last, st => by
    cases last with
    | none =>
      simp only [luajit.fwd_write, luajit.push_label]
      refine lu_chain_step (b := st.labels ++ [st.counter]) _ _ ?_ ?_ ?_
      · intro hok
        exact (lj_ext1 code _).1 hok
      · obtain ⟨e, he⟩ := (lj_ext1 code _).2
        exact ⟨st.counter :: e, by rw [he]; simp⟩
      · intro st1 h1
        refine lu_chain_step (b := st.labels ++ [st.counter]) _ _ (fun _ => h1)
          ⟨[st.counter], h1⟩ ?_
        intro st2 h2
        refine lu_chain_step (b := st.labels ++ [st.counter]) _ _
          (fun _ => by rw [wr_labels, h2]) ⟨[st.counter], by rw [wr_labels, h2]⟩ ?_
        intro st3 h3
        have hpop : (luajit.pop_label st3).labels = st.labels := by
          simp [luajit.pop_label, h3]
        exact ⟨fun _ => hpop, ⟨[], by simp [okE, hpop]⟩⟩
    | some v =>
      simp only [luajit.fwd_write, luajit.push_label]
      refine lu_chain_step (b := st.labels ++ [st.counter]) _ _ ?_ ?_ ?_
      · intro hok
        exact (lj_ext1 code _).1 hok
      · obtain ⟨e, he⟩ := (lj_ext1 code _).2
        exact ⟨st.counter :: e, by rw [he]; simp⟩
      · intro st1 h1
        refine lu_chain_step (b := st.labels ++ [st.counter]) _ _
          (fun _ => by rw [lj_term_labels, h1]) ⟨[st.counter], by rw [lj_term_labels, h1]⟩ ?_
        intro st2 h2
        refine lu_chain_step (b := st.labels ++ [st.counter]) _ _
          (fun _ => by rw [wr_labels, h2]) ⟨[st.counter], by rw [wr_labels, h2]⟩ ?_
        intro st3 h3
        have hpop : (luajit.pop_label st3).labels = st.labels := by
          simp [luajit.pop_label, h3]
        exact ⟨fun _ => hpop, ⟨[], by simp [okE, hpop]⟩⟩

theorem lj_ext_bwd : ∀ (f : luajit.Fwd) (st : luajit.St),
    ((luajit.bwd_write f st).2.2 = R.ok → ((luajit.bwd_write f st).2.1).labels = st.labels) ∧
      ∃ e, ((luajit.bwd_write f st).2.1).labels = st.labels ++ e
  | luajit.Fwd.mk code last, st => by
    cases last with
    | none =>
      simp only [luajit.bwd_write, luajit.push_label]
      refine lu_chain_step (b := st.labels ++ [st.counter]) _ _ (fun _ => wr_labels _ _)
        ⟨[st.counter], wr_labels _ _⟩ ?_
      intro st1 h1
      refine lu_chain_step (b := st.labels ++ [st.counter]) _ _
        (fun _ => by rw [wr_labels, h1]) ⟨[st.counter], by rw [wr_labels, h1]⟩ ?_
      intro st2 h2
      refine lu_chain_step (b := st.labels ++ [st.counter]) _ _ ?_ ?_ ?_
      · intro hok
        rw [(lj_ext1 code st2).1 hok, h2]
      · obtain ⟨e, he⟩ := (lj_ext1 code st2).2
        exact ⟨st.counter :: e, by rw [he, h2]; simp⟩
      · intro st3 h3
        refine lu_chain_step (b := st.labels ++ [st.counter]) _ _ (fun _ => h3)
          ⟨[st.counter], h3⟩ ?_
        intro st4 h4
        refine lu_chain_step (b := st.labels ++ [st.counter]) _ _
          (fun _ => by rw [wr_labels, h4]) ⟨[st.counter], by rw [wr_labels, h4]⟩ ?_
        intro st5 h5
        refine lu_chain_step (b := st.labels ++ [st.counter]) _ _
          (fun _ => by rw [wr_labels, h5]) ⟨[st.counter], by rw [wr_labels, h5]⟩ ?_
        intro st6 h6
        have hpop : (luajit.pop_label st6).labels = st.labels := by
          simp [luajit.pop_label, h6]
        exact ⟨fun _ => hpop, ⟨[], by simp [okE, hpop]⟩⟩
    | some v =>
      simp only [luajit.bwd_write, luajit.push_label]
      refine lu_chain_step (b := st.labels ++ [st.counter]) _ _ (fun _ => wr_labels _ _)
        ⟨[st.counter], wr_labels _ _⟩ ?_
      intro st1 h1
      refine lu_chain_step (b := st.labels ++ [st.counter]) _ _
        (fun _ => by rw [wr_labels, h1]) ⟨[st.counter], by rw [wr_labels, h1]⟩ ?_
      intro st2 h2
      refine lu_chain_step (b := st.labels ++ [st.counter]) _ _ ?_ ?_ ?_
      · intro hok
        rw [(lj_ext1 code st2).1 hok, h2]
      · obtain ⟨e, he⟩ := (lj_ext1 code st2).2
        exact ⟨st.counter :: e, by rw [he, h2]; simp⟩
      · intro st3 h3
        refine lu_chain_step (b := st.labels ++ [st.counter]) _ _
          (fun _ => by rw [lj_term_labels, h3]) ⟨[st.counter], by rw [lj_term_labels, h3]⟩ ?_
        intro st4 h4
        refine lu_chain_step (b := st.labels ++ [st.counter]) _ _
          (fun _ => by rw [wr_labels, h4]) ⟨[st.counter], by rw [wr_labels, h4]⟩ ?_
        intro st5 h5
        refine lu_chain_step (b := st.labels ++ [st.counter]) _ _
          (fun _ => by rw [wr_labels, h5]) ⟨[st.counter], by rw [wr_labels, h5]⟩ ?_
        intro st6 h6
        have hpop : (luajit.pop_label st6).labels = st.labels := by
          simp [luajit.pop_label, h6]
        exact ⟨fun _ => hpop, ⟨[], by simp [okE, hpop]⟩⟩
end

/-! ### C9 — scope stack discipline -/

/-- C9: in both backends, whenever a statement's lowering returns
successfully the manager's label stack is exactly what it was before the
call (each wrapper pushes one frame and pops it before returning); an early
error return from a body write skips the pop, shown by concrete failing
runs whose final stack still holds the pushed frame. -/
theorem c9_theorem :
    (∀ (s : luajit.StmtJ) (st : luajit.St) (cs : List luajit.Ck) (st' : luajit.St),
      luajit.stmtJ_write s st = (cs, st', R.ok) → st'.labels = st.labels) ∧
    (∀ (s : luau.Stmt) (st : luau.St) (cs : List luau.Ck) (st' : luau.St),
      luau.stmt_write s st = (cs, st', R.ok) → st'.labels = st.labels) ∧
    ((luau.stmt_write (luau.Stmt.forward []) ⟨[], 0, 0, 1⟩).2.2 ≠ R.ok ∧
      ((luau.stmt_write (luau.Stmt.forward []) ⟨[], 0, 0, 1⟩).2.1).labels =
        [luau.Label.Forward]) ∧
    ((luajit.fwd_write (luajit.Fwd.mk [] none) ⟨[], 5, 0, 0⟩).2.2 ≠ R.ok ∧
      ((luajit.fwd_write (luajit.Fwd.mk [] none) ⟨[], 5, 0, 0⟩).2.1).labels = [5]) := by
  refine ⟨?_, ?_, by decide, by decide⟩
  · intro s st cs st' h
    have hx := (lj_ext s st).1 (by rw [h])
    rw [h] at hx
    exact hx
  · intro s st cs st' h
    have hx := (lu_main s st).1 (by rw [h])
    rw [h] at hx
    exact hx

/-- C9 witness: successful lowerings at concrete inputs leave the concrete
label stacks untouched. -/
theorem c9_witness :
    ((luau.stmt_write (luau.Stmt.br 0) ⟨[luau.Label.Backward], 0, 0, 9⟩).2.1).labels =
      [luau.Label.Backward] ∧
    ((luajit.stmtJ_write (luajit.StmtJ.setGlobal 2 "VAL") ⟨[4], 0, 0, 9⟩).2.1).labels = [4] :=
  ⟨c9_theorem.2.1 (luau.Stmt.br 0) ⟨[luau.Label.Backward], 0, 0, 9⟩ _ _ rfl,
   c9_theorem.1 (luajit.StmtJ.setGlobal 2 "VAL") ⟨[4], 0, 0, 9⟩ _ _ rfl⟩

/-! ### Anchor/goto accounting for the goto backend -/

theorem lj_anchorCount_append (a b : List luajit.Ck) :
    luajit.anchorCount (a ++ b) = luajit.anchorCount a + luajit.anchorCount b :=
  List.countP_append _ _ _

theorem lj_gotoLabels_append (a b : List luajit.Ck) :
    luajit.gotoLabels (a ++ b) = luajit.gotoLabels a ++ luajit.gotoLabels b :=
  List.filterMap_append _ _ _

theorem lj_anchorLabels_append (a b : List luajit.Ck) :
    luajit.anchorLabels (a ++ b) = luajit.anchorLabels a ++ luajit.anchorLabels b :=
  List.filterMap_append _ _ _

theorem lj_nth_back_mem {l : List ℕ} {n x : ℕ} (h : luajit.nth_back l n = some x) : x ∈ l := by
  rw [luajit.nth_back] at h
  exact List.mem_reverse.mp (List.get?_mem h)

theorem lj_tame_thenDo {st0 : luajit.St} (a : List luajit.Ck × luajit.St × R)
    (f : luajit.St → List luajit.Ck × luajit.St × R)
    (ha : (a.2.1).labels = st0.labels ∧ luajit.anchorCount a.1 = 0 ∧
      ∀ l ∈ luajit.gotoLabels a.1, l ∈ st0.labels)
    (hf : ∀ st1, st1.labels = st0.labels →
      ((f st1).2.1).labels = st0.labels ∧ luajit.anchorCount (f st1).1 = 0 ∧
        ∀ l ∈ luajit.gotoLabels (f st1).1, l ∈ st0.labels) :
    ((thenDo a f).2.1).labels = st0.labels ∧ luajit.anchorCount (thenDo a f).1 = 0 ∧
      ∀ l ∈ luajit.gotoLabels (thenDo a f).1, l ∈ st0.labels := by
  rcases thenDo_dest a f with ⟨hok, heq⟩ | ⟨_, heq⟩ <;> rw [heq]
  · obtain ⟨hf1, hf2, hf3⟩ := hf (a.2.1) ha.1
    refine ⟨hf1, ?_, ?_⟩
    · simp only [lj_anchorCount_append, ha.2.1, hf2]
    · intro l hl
      rw [lj_gotoLabels_append] at hl
      rcases List.mem_append.mp hl with h | h
      · exact ha.2.2 l h
      · exact hf3 l h
  · exact ha

theorem lj_tame_wr (c : luajit.Ck) (st : luajit.St)
    (hc : luajit.anchorCount [c] = 0 ∧ luajit.gotoLabels [c] = []) :
    ((wr c st).2.1).labels = st.labels ∧ luajit.anchorCount (wr c st).1 = 0 ∧
      ∀ l ∈ luajit.gotoLabels (wr c st).1, l ∈ st.labels := by
  rcases wr_cases c st with h | h <;> rw [h]
  · exact ⟨rfl, hc.1, by simp [hc.2]⟩
  · exact ⟨rfl, rfl, by simp [luajit.gotoLabels]⟩

theorem lj_tame_br_at (up : ℕ) (st : luajit.St) :
    ((luajit.write_br_at up st).2.1).labels = st.labels ∧
      luajit.anchorCount (luajit.write_br_at up st).1 = 0 ∧
      ∀ l ∈ luajit.gotoLabels (luajit.write_br_at up st).1, l ∈ st.labels := by
  rw [luajit.write_br_at]
  rcases hnb : luajit.nth_back st.labels up with _ | lv
  · exact ⟨rfl, rfl, by simp [luajit.gotoLabels]⟩
  · have hmem : lv ∈ st.labels := lj_nth_back_mem hnb
    show ((wr (luajit.Ck.goto lv) st).2.1).labels = st.labels ∧
      luajit.anchorCount (wr (luajit.Ck.goto lv) st).1 = 0 ∧
      ∀ l ∈ luajit.gotoLabels (wr (luajit.Ck.goto lv) st).1, l ∈ st.labels
    rcases wr_cases (luajit.Ck.goto lv) st with h | h <;> rw [h]
    · refine ⟨rfl, rfl, ?_⟩
      intro l hl
      simp only [luajit.gotoLabels, List.filterMap_cons, List.filterMap_nil] at hl
      simp only [List.mem_singleton] at hl
      rw [hl]
      exact hmem
    · exact ⟨rfl, rfl, by simp [luajit.gotoLabels]⟩

theorem lj_tame_runs (runs : List (ℕ × ℕ × ℕ)) : ∀ st : luajit.St,
    ((luajit.runs_write runs st).2.1).labels = st.labels ∧
      luajit.anchorCount (luajit.runs_write runs st).1 = 0 ∧
      ∀ l ∈ luajit.gotoLabels (luajit.runs_write runs st).1, l ∈ st.labels := by
  induction runs with
  | nil => exact fun st => ⟨rfl, rfl, by simp [luajit.runs_write, okE, luajit.gotoLabels]⟩
  | cons r rest ih =>
    intro st
    obtain ⟨start, stop, dest⟩ := r
    rw [luajit.runs_write]
    refine lj_tame_thenDo _ _ (lj_tame_wr _ _ ⟨rfl, rfl⟩) ?_
    intro st1 h1
    rw [← h1]
    refine lj_tame_thenDo _ _ (lj_tame_br_at _ _) ?_
    intro st2 h2
    rw [← h2]
    refine lj_tame_thenDo _ _ (lj_tame_wr _ _ ⟨rfl, rfl⟩) ?_
    intro st3 h3
    rw [← h3]
    exact ih st3

theorem lj_tame_term (t : luajit.Term) (st : luajit.St) :
    ((luajit.term_write t st).2.1).labels = st.labels ∧
      luajit.anchorCount (luajit.term_write t st).1 = 0 ∧
      ∀ l ∈ luajit.gotoLabels (luajit.term_write t st).1, l ∈ st.labels := by
  cases t with
  | unreachable => exact lj_tame_wr _ _ ⟨rfl, rfl⟩
  | br target => exact lj_tame_br_at _ _
  | brTable cond table default =>
    rw [luajit.term_write]
    split
    · exact lj_tame_br_at _ _
    · refine lj_tame_thenDo _ _ (lj_tame_wr _ _ ⟨rfl, rfl⟩) ?_
      intro st1 h1
      rw [← h1]
      refine lj_tame_thenDo _ _ (lj_tame_wr _ _ ⟨rfl, rfl⟩) ?_
      intro st2 h2
      rw [← h2]
      refine lj_tame_thenDo _ _ (lj_tame_runs _ _) ?_
      intro st3 h3
      rw [← h3]
      refine lj_tame_thenDo _ _ (lj_tame_wr _ _ ⟨rfl, rfl⟩) ?_
      intro st4 h4
      rw [← h4]
      refine lj_tame_thenDo _ _ (lj_tame_br_at _ _) ?_
      intro st5 h5
      rw [← h5]
      exact lj_tame_wr _ _ ⟨rfl, rfl⟩

theorem lj_tame_call_store (result : ℕ × ℕ) (st : luajit.St) :
    ((luajit.write_call_store result st).2.1).labels = st.labels ∧
      luajit.anchorCount (luajit.write_call_store result st).1 = 0 ∧
      ∀ l ∈ luajit.gotoLabels (luajit.write_call_store result st).1, l ∈ st.labels := by
  rw [luajit.write_call_store]
  split
  · exact ⟨rfl, rfl, by simp [okE, luajit.gotoLabels]⟩
  · refine lj_tame_thenDo _ _ (lj_tame_wr _ _ ⟨rfl, rfl⟩) ?_
    intro st1 h1
    rw [← h1]
    exact lj_tame_wr _ _ ⟨rfl, rfl⟩

theorem lj_tame_variable (var : ℕ) (st : luajit.St) :
    ((luajit.write_variable var st).2.1).labels = st.labels ∧
      luajit.anchorCount (luajit.write_variable var st).1 = 0 ∧
      ∀ l ∈ luajit.gotoLabels (luajit.write_variable var st).1, l ∈ st.labels := by
  rw [luajit.write_variable]
  split
  · exact lj_tame_wr _ _ ⟨rfl, rfl⟩
  · exact lj_tame_wr _ _ ⟨rfl, rfl⟩

theorem lj_anchorCount_nil : luajit.anchorCount ([] : List luajit.Ck) = 0 := rfl

theorem lj_anchorCount_str (s : String) : luajit.anchorCount [luajit.Ck.str s] = 0 := rfl

theorem lj_anchorCount_expr (s : String) : luajit.anchorCount [luajit.Ck.expr s] = 0 := rfl

theorem lj_anchorCount_anchor (l : ℕ) : luajit.anchorCount [luajit.Ck.anchor l] = 1 := rfl

theorem lj_gotoLabels_nil : luajit.gotoLabels ([] : List luajit.Ck) = [] := rfl

theorem lj_gotoLabels_str (s : String) : luajit.gotoLabels [luajit.Ck.str s] = [] := rfl

theorem lj_gotoLabels_expr (s : String) : luajit.gotoLabels [luajit.Ck.expr s] = [] := rfl

theorem lj_gotoLabels_anchor (l : ℕ) : luajit.gotoLabels [luajit.Ck.anchor l] = [] := rfl

theorem lj_anchorLabels_nil : luajit.anchorLabels ([] : List luajit.Ck) = [] := rfl

theorem lj_anchorLabels_str (s : String) : luajit.anchorLabels [luajit.Ck.str s] = [] := rfl

theorem lj_anchorLabels_expr (s : String) : luajit.anchorLabels [luajit.Ck.expr s] = [] := rfl

theorem lj_anchorLabels_anchor (l : ℕ) : luajit.anchorLabels [luajit.Ck.anchor l] = [l] := rfl

theorem lj_cnt_of_tame {e : List luajit.Ck × luajit.St × R} {st : luajit.St}
    {cs : List luajit.Ck} {st' : luajit.St} (h : e = (cs, st', R.ok))
    (ht : (e.2.1).labels = st.labels ∧ luajit.anchorCount e.1 = 0 ∧
      ∀ l ∈ luajit.gotoLabels e.1, l ∈ st.labels) :
    luajit.anchorCount cs = 0 ∧
      ∀ l ∈ luajit.gotoLabels cs, l ∈ st.labels ∨ l ∈ luajit.anchorLabels cs := by
  rw [h] at ht
  exact ⟨ht.2.1, fun l hl => Or.inl (ht.2.2 l hl)⟩

mutual
theorem lj_cnt : ∀ (s : luajit.StmtJ) (st : luajit.St) (cs : List luajit.Ck) (st' : luajit.St),
    luajit.stmtJ_write s st = (cs, st', R.ok) →
      luajit.anchorCount cs = luajit.countFB s ∧
      ∀ l ∈ luajit.gotoLabels cs, l ∈ st.labels ∨ l ∈ luajit.anchorLabels cs
  | luajit.StmtJ.forward f, st, cs, st', h => by
    rw [show luajit.stmtJ_write (luajit.StmtJ.forward f) st = luajit.fwd_write f st from by
      cases f with | mk code last => cases last <;> rfl] at h
    have hx := lj_cntf f st cs st' h
    refine ⟨?_, hx.2⟩
    rw [hx.1]
    cases f with | mk code last => rfl
  | luajit.StmtJ.backward f, st, cs, st', h => by
    rw [show luajit.stmtJ_write (luajit.StmtJ.backward f) st = luajit.bwd_write f st from by
      cases f with | mk code last => cases last <;> rfl] at h
    have hx := lj_cntb f st cs st' h
    refine ⟨?_, hx.2⟩
    rw [hx.1]
    cases f with | mk code last => rfl
  | luajit.StmtJ.ifS cond truthy falsey, st, cs, st', h => by
    cases falsey with
    | none =>
      simp only [luajit.stmtJ_write] at h
      obtain ⟨a1, s1, b1, h1, h2, e1⟩ := thenDo_ok h
      obtain ⟨a2, s2, b2, h3, h4, e2⟩ := thenDo_ok h2
      obtain ⟨a3, s3, b3, h5, h6, e3⟩ := thenDo_ok h4
      obtain ⟨a4, s4, b4, h7, h8, e4⟩ := thenDo_ok h6
      obtain ⟨a5, s5, b5, h9, h10, e5⟩ := thenDo_ok h8
      rw [luajit.write_condition] at h3
      obtain ⟨ha1, hs1, _⟩ := wr_ok h1
      obtain ⟨ha2, hs2, _⟩ := wr_ok h3
      obtain ⟨ha3, hs3, _⟩ := wr_ok h5
      obtain ⟨ha5, hs5⟩ := okE_ok h9
      obtain ⟨hb5, _, _⟩ := wr_ok h10
      have hl3 : s3.labels = st.labels := by
        subst hs3 hs2 hs1
        rfl
      have hT := lj_cntf truthy s3 a4 s4 h7
      subst e1 e2 e3 e4 e5
      rw [ha1, ha2, ha3, ha5, hb5]
      refine ⟨?_, ?_⟩
      · simp only [lj_anchorCount_append, lj_anchorCount_nil, lj_anchorCount_str,
          lj_anchorCount_expr, hT.1, luajit.countFB]
        omega
      · intro x hx
        simp only [lj_gotoLabels_append, lj_gotoLabels_nil, lj_gotoLabels_str,
          lj_gotoLabels_expr, List.append_nil, List.nil_append] at hx
        rcases hT.2 x hx with hm | hm
        · exact Or.inl (hl3 ▸ hm)
        · right
          simp only [lj_anchorLabels_append, lj_anchorLabels_nil, lj_anchorLabels_str,
            lj_anchorLabels_expr]
          simp [hm]
    | some fb =>
      simp only [luajit.stmtJ_write] at h
      obtain ⟨a1, s1, b1, h1, h2, e1⟩ := thenDo_ok h
      obtain ⟨a2, s2, b2, h3, h4, e2⟩ := thenDo_ok h2
      obtain ⟨a3, s3, b3, h5, h6, e3⟩ := thenDo_ok h4
      obtain ⟨a4, s4, b4, h7, h8, e4⟩ := thenDo_ok h6
      obtain ⟨a5, s5, b5, h9, h10, e5⟩ := thenDo_ok h8
      obtain ⟨a6, s6, b6, h11, h12, e6⟩ := thenDo_ok h9
      rw [luajit.write_condition] at h3
      obtain ⟨ha1, hs1, _⟩ := wr_ok h1
      obtain ⟨ha2, hs2, _⟩ := wr_ok h3
      obtain ⟨ha3, hs3, _⟩ := wr_ok h5
      obtain ⟨ha6, hs6, _⟩ := wr_ok h11
      obtain ⟨hb5, _, _⟩ := wr_ok h10
      have hl3 : s3.labels = st.labels := by
        subst hs3 hs2 hs1
        rfl
      have hT := lj_cntf truthy s3 a4 s4 h7
      have hs4lab : s4.labels = st.labels := by
        have hx := (lj_ext_fwd truthy s3).1 (by rw [h7])
        rw [h7] at hx
        exact hx.trans hl3
      have hs6lab : s6.labels = st.labels := by
        subst hs6
        exact hs4lab
      have hF := lj_cntf fb s6 b6 s5 h12
      subst e1 e2 e3 e4 e5 e6
      rw [ha1, ha2, ha3, ha6, hb5]
      refine ⟨?_, ?_⟩
      · simp only [lj_anchorCount_append, lj_anchorCount_nil, lj_anchorCount_str,
          lj_anchorCount_expr, hT.1, hF.1, luajit.countFB]
        omega
      · intro x hx
        simp only [lj_gotoLabels_append, lj_gotoLabels_nil, lj_gotoLabels_str,
          lj_gotoLabels_expr, List.append_nil, List.nil_append, List.mem_append] at hx
        rcases hx with hx1 | hx1
        · rcases hT.2 x hx1 with hm | hm
          · exact Or.inl (hl3 ▸ hm)
          · right
            simp only [lj_anchorLabels_append, lj_anchorLabels_nil, lj_anchorLabels_str,
              lj_anchorLabels_expr]
            simp [hm]
        · rcases hF.2 x hx1 with hm | hm
          · exact Or.inl (hs6lab ▸ hm)
          · right
            simp only [lj_anchorLabels_append, lj_anchorLabels_nil, lj_anchorLabels_str,
              lj_anchorLabels_expr]
            simp [hm]
  | luajit.StmtJ.call func result param_list, st, cs, st', h => by
    refine lj_cnt_of_tame h ?_
    simp only [luajit.stmtJ_write]
    refine lj_tame_thenDo _ _ (lj_tame_call_store _ _) ?_
    intro st1 h1
    rw [← h1]
    refine lj_tame_thenDo _ _ (lj_tame_wr _ _ ⟨rfl, rfl⟩) ?_
    intro st2 h2
    rw [← h2]
    refine lj_tame_thenDo _ _ (lj_tame_wr _ _ ⟨rfl, rfl⟩) ?_
    intro st3 h3
    rw [← h3]
    exact lj_tame_wr _ _ ⟨rfl, rfl⟩
  | luajit.StmtJ.callIndirect tbl index result param_list, st, cs, st', h => by
    refine lj_cnt_of_tame h ?_
    simp only [luajit.stmtJ_write]
    refine lj_tame_thenDo _ _ (lj_tame_call_store _ _) ?_
    intro st1 h1
    rw [← h1]
    refine lj_tame_thenDo _ _ (lj_tame_wr _ _ ⟨rfl, rfl⟩) ?_
    intro st2 h2
    rw [← h2]
    refine lj_tame_thenDo _ _ (lj_tame_wr _ _ ⟨rfl, rfl⟩) ?_
    intro st3 h3
    rw [← h3]
    refine lj_tame_thenDo _ _ (lj_tame_wr _ _ ⟨rfl, rfl⟩) ?_
    intro st4 h4
    rw [← h4]
    refine lj_tame_thenDo _ _ (lj_tame_wr _ _ ⟨rfl, rfl⟩) ?_
    intro st5 h5
    rw [← h5]
    exact lj_tame_wr _ _ ⟨rfl, rfl⟩
  | luajit.StmtJ.setTemporary var value, st, cs, st', h => by
    refine lj_cnt_of_tame h ?_
    simp only [luajit.stmtJ_write]
    refine lj_tame_thenDo _ _ (lj_tame_wr _ _ ⟨rfl, rfl⟩) ?_
    intro st1 h1
    rw [← h1]
    exact lj_tame_wr _ _ ⟨rfl, rfl⟩
  | luajit.StmtJ.setLocal var value, st, cs, st', h => by
    refine lj_cnt_of_tame h ?_
    simp only [luajit.stmtJ_write]
    refine lj_tame_thenDo _ _ (lj_tame_variable _ _) ?_
    intro st1 h1
    rw [← h1]
    refine lj_tame_thenDo _ _ (lj_tame_wr _ _ ⟨rfl, rfl⟩) ?_
    intro st2 h2
    rw [← h2]
    exact lj_tame_wr _ _ ⟨rfl, rfl⟩
  | luajit.StmtJ.setGlobal var value, st, cs, st', h => by
    refine lj_cnt_of_tame h ?_
    simp only [luajit.stmtJ_write]
    refine lj_tame_thenDo _ _ (lj_tame_wr _ _ ⟨rfl, rfl⟩) ?_
    intro st1 h1
    rw [← h1]
    exact lj_tame_wr _ _ ⟨rfl, rfl⟩
  | luajit.StmtJ.storeAt what pointer offset value, st, cs, st', h => by
    refine lj_cnt_of_tame h ?_
    simp only [luajit.stmtJ_write]
    refine lj_tame_thenDo _ _ (lj_tame_wr _ _ ⟨rfl, rfl⟩) ?_
    intro st1 h1
    rw [← h1]
    refine lj_tame_thenDo _ _ (lj_tame_wr _ _ ⟨rfl, rfl⟩) ?_
    intro st2 h2
    rw [← h2]
    refine lj_tame_thenDo _ _ ?_ ?_
    · split
      · exact lj_tame_wr _ _ ⟨rfl, rfl⟩
      · exact ⟨rfl, rfl, by simp [okE, luajit.gotoLabels]⟩
    · intro st3 h3
      rw [← h3]
      refine lj_tame_thenDo _ _ (lj_tame_wr _ _ ⟨rfl, rfl⟩) ?_
      intro st4 h4
      rw [← h4]
      refine lj_tame_thenDo _ _ (lj_tame_wr _ _ ⟨rfl, rfl⟩) ?_
      intro st5 h5
      rw [← h5]
      exact lj_tame_wr _ _ ⟨rfl, rfl⟩

theorem lj_cnt1 : ∀ (l : List luajit.StmtJ) (st : luajit.St) (cs : List luajit.Ck)
    (st' : luajit.St),
    luajit.stmtsJ_write l st = (cs, st', R.ok) →
      luajit.anchorCount cs = luajit.countFBs l ∧
      ∀ x ∈ luajit.gotoLabels cs, x ∈ st.labels ∨ x ∈ luajit.anchorLabels cs
  | [], st, cs, st', h => by
    rw [luajit.stmtsJ_write] at h
    obtain ⟨hcs, _⟩ := okE_ok h
    subst hcs
    exact ⟨rfl, by intro x hx; simp [luajit.gotoLabels] at hx⟩
  | s :: rest, st, cs, st', h => by
    rw [luajit.stmtsJ_write] at h
    obtain ⟨a1, s1, b1, h1, h2, e1⟩ := thenDo_ok h
    have hI1 := lj_cnt s st a1 s1 h1
    have hI2 := lj_cnt1 rest s1 b1 st' h2
    have hl1 : s1.labels = st.labels := by
      have hx := (lj_ext s st).1 (by rw [h1])
      rw [h1] at hx
      exact hx
    subst e1
    refine ⟨?_, ?_⟩
    · simp only [lj_anchorCount_append, hI1.1, hI2.1, luajit.countFBs]
    · intro x hx
      rw [lj_gotoLabels_append] at hx
      rcases List.mem_append.mp hx with hx1 | hx1
      · rcases hI1.2 x hx1 with hm | hm
        · exact Or.inl hm
        · right
          rw [lj_anchorLabels_append]
          exact List.mem_append.mpr (Or.inl hm)
      · rcases hI2.2 x hx1 with hm | hm
        · exact Or.inl (hl1 ▸ hm)
        · right
          rw [lj_anchorLabels_append]
          exact List.mem_append.mpr (Or.inr hm)

theorem lj_cntf : ∀ (f : luajit.Fwd) (st : luajit.St) (cs : List luajit.Ck) (st' : luajit.St),
    luajit.fwd_write f st = (cs, st', R.ok) →
      luajit.anchorCount cs = luajit.countFwd f ∧
      ∀ l ∈ luajit.gotoLabels cs, l ∈ st.labels ∨ l ∈ luajit.anchorLabels cs
  | luajit.Fwd.mk code last, st, cs, st', h => by
    cases last with
    | none =>
      simp only [luajit.fwd_write, luajit.push_label] at h
      obtain ⟨a1, s1, b1, h1, h2, e1⟩ := thenDo_ok h
      obtain ⟨a2, s2, b2, h3, h4, e2⟩ := thenDo_ok h2
      obtain ⟨ha2, hs2⟩ := okE_ok h3
      obtain ⟨a3, s3, b3, h5, h6, e3⟩ := thenDo_ok h4
      obtain ⟨ha3, hs3, _⟩ := wr_ok h5
      obtain ⟨hb3, _⟩ := okE_ok h6
      have hIH := lj_cnt1 code _ a1 s1 h1
      have hmem1 : ∀ x ∈ luajit.gotoLabels a1, x ∈ st.labels ++ [st.counter] ∨
          x ∈ luajit.anchorLabels a1 := hIH.2
      subst e1 e2 e3
      rw [ha2, ha3, hb3]
      refine ⟨?_, ?_⟩
      · simp only [lj_anchorCount_append, lj_anchorCount_nil, lj_anchorCount_anchor, hIH.1,
          luajit.countFwd]
        omega
      · intro x hx
        simp only [lj_gotoLabels_append, lj_gotoLabels_nil, lj_gotoLabels_anchor,
          List.append_nil, List.nil_append] at hx
        rcases hmem1 x hx with hm | hm
        · rcases List.mem_append.mp hm with hm1 | hm1
          · exact Or.inl hm1
          · right
            simp only [lj_anchorLabels_append, lj_anchorLabels_nil, lj_anchorLabels_anchor]
            simp only [List.mem_singleton] at hm1
            subst hm1
            simp
        · right
          simp only [lj_anchorLabels_append, lj_anchorLabels_nil, lj_anchorLabels_anchor]
          simp [hm]
    | some v =>
      simp only [luajit.fwd_write, luajit.push_label] at h
      obtain ⟨a1, s1, b1, h1, h2, e1⟩ := thenDo_ok h
      obtain ⟨a2, s2, b2, h3, h4, e2⟩ := thenDo_ok h2
      obtain ⟨a3, s3, b3, h5, h6, e3⟩ := thenDo_ok h4
      obtain ⟨ha3, hs3, _⟩ := wr_ok h5
      obtain ⟨hb3, _⟩ := okE_ok h6
      have hIH := lj_cnt1 code _ a1 s1 h1
      have hs1lab : s1.labels = st.labels ++ [st.counter] := by
        have hx := (lj_ext1 code _).1 (by rw [h1])
        rw [h1] at hx
        exact hx
      have hterm := lj_tame_term v s1
      rw [h3] at hterm
      subst e1 e2 e3
      rw [ha3, hb3]
      refine ⟨?_, ?_⟩
      · have h0 : luajit.anchorCount a2 = 0 := hterm.2.1
        simp only [lj_anchorCount_append, lj_anchorCount_nil, lj_anchorCount_anchor, hIH.1, h0,
          luajit.countFwd]
        omega
      · intro x hx
        simp only [lj_gotoLabels_append, lj_gotoLabels_nil, lj_gotoLabels_anchor,
          List.append_nil, List.nil_append, List.mem_append] at hx
        have key : x ∈ st.labels ++ [st.counter] ∨ x ∈ luajit.anchorLabels a1 := by
          rcases hx with hx1 | hx1
          · exact hIH.2 x hx1
          · exact Or.inl (by rw [← hs1lab]; exact hterm.2.2 x hx1)
        rcases key with hm | hm
        · rcases List.mem_append.mp hm with hm1 | hm1
          · exact Or.inl hm1
          · right
            simp only [lj_anchorLabels_append, lj_anchorLabels_nil, lj_anchorLabels_anchor]
            simp only [List.mem_singleton] at hm1
            subst hm1
            simp
        · right
          simp only [lj_anchorLabels_append, lj_anchorLabels_nil, lj_anchorLabels_anchor]
          simp [hm]

theorem lj_cntb : ∀ (f : luajit.Fwd) (st : luajit.St) (cs : List luajit.Ck) (st' : luajit.St),
    luajit.bwd_write f st = (cs, st', R.ok) →
      luajit.anchorCount cs = luajit.countFwd f ∧
      ∀ l ∈ luajit.gotoLabels cs, l ∈ st.labels ∨ l ∈ luajit.anchorLabels cs
  | luajit.Fwd.mk code last, st, cs, st', h => by
    cases last with
    | none =>
      simp only [luajit.bwd_write, luajit.push_label] at h
      obtain ⟨a1, s1, b1, h1, h2, e1⟩ := thenDo_ok h
      obtain ⟨a2, s2, b2, h3, h4, e2⟩ := thenDo_ok h2
      obtain ⟨a3, s3, b3, h5, h6, e3⟩ := thenDo_ok h4
      obtain ⟨a4, s4, b4, h7, h8, e4⟩ := thenDo_ok h6
      obtain ⟨a5, s5, b5, h9, h10, e5⟩ := thenDo_ok h8
      obtain ⟨a6, s6, b6, h11, h12, e6⟩ := thenDo_ok h10
      obtain ⟨ha1, hs1, _⟩ := wr_ok h1
      obtain ⟨ha2, hs2, _⟩ := wr_ok h3
      obtain ⟨ha4, hs4⟩ := okE_ok h7
      obtain ⟨ha5, hs5, _⟩ := wr_ok h9
      obtain ⟨ha6, hs6, _⟩ := wr_ok h11
      obtain ⟨hb6, _⟩ := okE_ok h12
      have hs2lab : s2.labels = st.labels ++ [st.counter] := by
        subst hs2 hs1
        rfl
      have hIH := lj_cnt1 code s2 a3 s3 h5
      subst e1 e2 e3 e4 e5 e6
      rw [ha1, ha2, ha4, ha5, ha6, hb6]
      refine ⟨?_, ?_⟩
      · simp only [lj_anchorCount_append, lj_anchorCount_nil, lj_anchorCount_str,
          lj_anchorCount_anchor, hIH.1, luajit.countFwd]
        omega
      · intro x hx
        simp only [lj_gotoLabels_append, lj_gotoLabels_nil, lj_gotoLabels_str,
          lj_gotoLabels_anchor, List.append_nil, List.nil_append] at hx
        rcases hIH.2 x hx with hm | hm
        · rw [hs2lab] at hm
          rcases List.mem_append.mp hm with hm1 | hm1
          · exact Or.inl hm1
          · right
            simp only [lj_anchorLabels_append, lj_anchorLabels_nil, lj_anchorLabels_str,
              lj_anchorLabels_anchor]
            simp only [List.mem_singleton] at hm1
            subst hm1
            simp
        · right
          simp only [lj_anchorLabels_append, lj_anchorLabels_nil, lj_anchorLabels_str,
            lj_anchorLabels_anchor]
          simp [hm]
    | some v =>
      simp only [luajit.bwd_write, luajit.push_label] at h
      obtain ⟨a1, s1, b1, h1, h2, e1⟩ := thenDo_ok h
      obtain ⟨a2, s2, b2, h3, h4, e2⟩ := thenDo_ok h2
      obtain ⟨a3, s3, b3, h5, h6, e3⟩ := thenDo_ok h4
      obtain ⟨a4, s4, b4, h7, h8, e4⟩ := thenDo_ok h6
      obtain ⟨a5, s5, b5, h9, h10, e5⟩ := thenDo_ok h8
      obtain ⟨a6, s6, b6, h11, h12, e6⟩ := thenDo_ok h10
      obtain ⟨ha1, hs1, _⟩ := wr_ok h1
      obtain ⟨ha2, hs2, _⟩ := wr_ok h3
      obtain ⟨ha5, hs5, _⟩ := wr_ok h9
      obtain ⟨ha6, hs6, _⟩ := wr_ok h11
      obtain ⟨hb6, _⟩ := okE_ok h12
      have hs2lab : s2.labels = st.labels ++ [st.counter] := by
        subst hs2 hs1
        rfl
      have hIH := lj_cnt1 code s2 a3 s3 h5
      have hs3lab : s3.labels = st.labels ++ [st.counter] := by
        have hx := (lj_ext1 code s2).1 (by rw [h5])
        rw [h5] at hx
        exact hx.trans hs2lab
      have hterm := lj_tame_term v s3
      rw [h7] at hterm
      subst e1 e2 e3 e4 e5 e6
      rw [ha1, ha2, ha5, ha6, hb6]
      refine ⟨?_, ?_⟩
      · have h0 : luajit.anchorCount a4 = 0 := hterm.2.1
        simp only [lj_anchorCount_append, lj_anchorCount_nil, lj_anchorCount_str,
          lj_anchorCount_anchor, hIH.1, h0, luajit.countFwd]
        omega
      · intro x hx
        simp only [lj_gotoLabels_append, lj_gotoLabels_nil, lj_gotoLabels_str,
          lj_gotoLabels_anchor, List.append_nil, List.nil_append, List.mem_append] at hx
        have key : x ∈ st.labels ++ [st.counter] ∨ x ∈ luajit.anchorLabels a3 := by
          rcases hx with hx1 | hx1
          · exact hs2lab ▸ hIH.2 x hx1
          · exact Or.inl (by rw [← hs3lab]; exact hterm.2.2 x hx1)
        rcases key with hm | hm
        · rcases List.mem_append.mp hm with hm1 | hm1
          · exact Or.inl hm1
          · right
            simp only [lj_anchorLabels_append, lj_anchorLabels_nil, lj_anchorLabels_str,
              lj_anchorLabels_anchor]
            simp only [List.mem_singleton] at hm1
            subst hm1
            simp
        · right
          simp only [lj_anchorLabels_append, lj_anchorLabels_nil, lj_anchorLabels_str,
            lj_anchorLabels_anchor]
          simp [hm]
end

/-! ### C6 — anchor counting and goto resolution in the goto backend -/

/-- C6: for every input tree whose lowering by the goto backend succeeds,
the number of label anchors in the output equals the number of `Forward`
plus `Backward` nodes of the input; every goto that `write_br_at` ever
emits names a frame active on the label stack at the branch's own position
(an ancestor scope); and consequently in a successful lowering every goto
of the output names either a frame that was active at entry or one of the
output's own anchors — in particular, from an empty entry stack, every
goto names an anchor emitted in the same output. -/
theorem c6_theorem :
    (∀ (s : luajit.StmtJ) (st : luajit.St) (cs : List luajit.Ck) (st' : luajit.St),
      luajit.stmtJ_write s st = (cs, st', R.ok) →
        luajit.anchorCount cs = luajit.countFB s ∧
        ∀ l ∈ luajit.gotoLabels cs, l ∈ st.labels ∨ l ∈ luajit.anchorLabels cs) ∧
    (∀ (up : ℕ) (st : luajit.St) (l : ℕ),
      l ∈ luajit.gotoLabels (luajit.write_br_at up st).1 → l ∈ st.labels) ∧
    (∀ (s : luajit.StmtJ) (st : luajit.St) (cs : List luajit.Ck) (st' : luajit.St),
      st.labels = [] → luajit.stmtJ_write s st = (cs, st', R.ok) →
        ∀ l ∈ luajit.gotoLabels cs, l ∈ luajit.anchorLabels cs) := by
  refine ⟨fun s st cs st' h => lj_cnt s st cs st' h,
    fun up st l hl => (lj_tame_br_at up st).2.2 l hl, ?_⟩
  intro s st cs st' hnil h l hl
  rcases (lj_cnt s st cs st' h).2 l hl with hm | hm
  · rw [hnil] at hm
    exact absurd hm (List.not_mem_nil l)
  · exact hm

/-- C6 witness: on the concrete tree `Forward [Backward [] (Br 1)]` from the
empty scope state, the successful output has as many anchors as the tree has
`Forward`+`Backward` nodes, and each goto names an entry frame or an output
anchor. -/
theorem c6_witness :
    luajit.anchorCount (luajit.stmtJ_write c6_tree ⟨[], 0, 0, 30⟩).1 = luajit.countFB c6_tree ∧
    ∀ l ∈ luajit.gotoLabels (luajit.stmtJ_write c6_tree ⟨[], 0, 0, 30⟩).1,
      l ∈ (⟨[], 0, 0, 30⟩ : luajit.St).labels ∨
        l ∈ luajit.anchorLabels (luajit.stmtJ_write c6_tree ⟨[], 0, 0, 30⟩).1 :=
  c6_theorem.1 c6_tree ⟨[], 0, 0, 30⟩ _ _ rfl

/-! ### C7 — the trailing return of the goto backend -/

/-- C7 counterexample: for the function with two temporary slots
(`num_stack = 2`) and one result, the emitted body ends with
`return reg_0 end` — the LEADING result register `reg_0` — not with the
trailing slot `reg_1` that the claim's "trailing num_result temporary
slots" would require. -/
theorem c7_counterexample :
    (luajit.funcData_write c7_fd c7_st).2.2 = R.ok ∧
    c7_fd.num_stack = 2 ∧ c7_fd.num_result = 1 ∧
    (c7_out.reverse.take 4).reverse =
      [luajit.Ck.str "return ", luajit.Ck.str "reg_0", luajit.Ck.str " ",
        luajit.Ck.str "end "] ∧
    luajit.write_ascending "reg" 0 1 = "reg_0" ∧
    luajit.write_ascending "reg" (2 - 1) 2 = "reg_1" ∧
    (c7_out.reverse.take 4).reverse ≠
      [luajit.Ck.str "return ", luajit.Ck.str "reg_1", luajit.Ck.str " ",
        luajit.Ck.str "end "] := by
  decide

/-- C7 (amended): whenever `FuncData::write` of the goto backend succeeds
and `num_result` is non-zero, the output ends with an explicit return of
the LEADING `num_result` temporary registers `reg_0 .. reg_{num_result-1}`
(not the trailing slots), followed by the closing `end`; when `num_result`
is zero no return is emitted and the output ends with the closing `end`
alone. -/
theorem c7_theorem :
    ∀ (fd : luajit.FuncData) (st : luajit.St) (cs : List luajit.Ck) (st' : luajit.St),
      luajit.funcData_write fd st = (cs, st', R.ok) →
        (fd.num_result ≠ 0 → ∃ pre, cs = pre ++ [luajit.Ck.str "return ",
          luajit.Ck.str (luajit.write_ascending "reg" 0 fd.num_result),
          luajit.Ck.str " ", luajit.Ck.str "end "]) ∧
        (fd.num_result = 0 → ∃ pre, cs = pre ++ [luajit.Ck.str "end "]) := by
  intro fd st cs st' h
  rw [luajit.funcData_write] at h
  obtain ⟨a1, s1, b1, h1, h2, e1⟩ := thenDo_ok h
  obtain ⟨a2, s2, b2, h3, h4, e2⟩ := thenDo_ok h2
  obtain ⟨a3, s3, b3, h5, h6, e3⟩ := thenDo_ok h4
  obtain ⟨a4, s4, b4, h7, h8, e4⟩ := thenDo_ok h6
  obtain ⟨a5, s5, b5, h9, h10, e5⟩ := thenDo_ok h8
  obtain ⟨hb5, _, _⟩ := wr_ok h10
  constructor
  · intro hnr
    rw [if_pos hnr] at h9
    obtain ⟨a6, s6, b6, h11, h12, e6⟩ := thenDo_ok h9
    obtain ⟨a7, s7, b7, h13, h14, e7⟩ := thenDo_ok h12
    obtain ⟨ha6, _, _⟩ := wr_ok h11
    obtain ⟨ha7, _, _⟩ := wr_ok h13
    obtain ⟨hb7, _, _⟩ := wr_ok h14
    refine ⟨a1 ++ a2 ++ a3 ++ a4, ?_⟩
    subst e1 e2 e3 e4 e5 e6 e7
    rw [ha6, ha7, hb7, hb5]
    simp
  · intro hz
    rw [if_neg (not_not_intro hz)] at h9
    obtain ⟨ha5, _⟩ := okE_ok h9
    refine ⟨a1 ++ a2 ++ a3 ++ a4, ?_⟩
    subst e1 e2 e3 e4 e5
    rw [ha5, hb5]
    simp

/-- C7 witness: at the concrete one-result function the amended theorem
yields the closing `return reg_0 end` suffix. -/
theorem c7_witness :
    ∃ pre, c7_out = pre ++ [luajit.Ck.str "return ",
      luajit.Ck.str (luajit.write_ascending "reg" 0 1),
      luajit.Ck.str " ", luajit.Ck.str "end "] :=
  (c7_theorem c7_fd c7_st _ _ rfl).1 (by decide)
